import Mathlib

/-!
Verification of the running-route search engine.

This development is a shallow embedding of the Python sources of the
route-planning core (`src/data/entities.py`, `src/cost/cost_function.py`,
`src/algorithm/{astar,pareto,weight_sampler,route_finder}.py`) into Lean.

Modelling conventions:
* Python `float` is modelled as `ℚ` (exact real arithmetic); Python `int`
  as `ℤ`.
* The transcendental ingredients (the haversine formula built from
  `math.sin/cos/asin/sqrt`, and `math.cos/sin` of the rotation angle) are
  not rational-valued, so they are abstracted into a `Geo` record of
  opaque-to-the-development function parameters.  Every theorem quantifies
  over the record, and concrete instantiations are used for witnesses.
  All remaining arithmetic (projections, sums, normalisation, comparisons)
  is embedded exactly.
* Fallible Python code (raising `ValueError` / `AttributeError`) is
  modelled with `Except PyErr`.
* Python `dict` preserves insertion order and updates in place; it is
  modelled as an association list with upsert semantics.  Python `set`
  contents are modelled as duplicate-free lists in insertion order; for
  the small-integer element sets appearing here CPython iterates sets in
  ascending hash-slot order, so concrete witness graphs below are built
  so that insertion order and CPython iteration order coincide.
-/

set_option maxHeartbeats 1000000

attribute [local semireducible] Rat.add Rat.mul Rat.inv Rat.sub

deriving instance DecidableEq for Except

/-- Error values surfaced by the embedded Python code: `ValueError` raised
by explicit validation, and `AttributeError` raised by an access to a
missing attribute. -/
inductive PyErr where
  | valueError : PyErr
  | attributeError : PyErr
deriving DecidableEq, Repr

/-- Truncation of a rational towards zero, the semantics of Python's
`int(x)` on a float. -/
def pyTrunc (q : ℚ) : ℤ := if 0 ≤ q then ⌊q⌋ else ⌈q⌉

/-- Python list slicing `l[:k]` for a possibly negative `k`:
a nonnegative `k` keeps the first `k` elements, a negative `k` drops the
last `-k` elements. -/
def pySliceTo {α : Type} (l : List α) (k : ℤ) : List α :=
  if 0 ≤ k then l.take k.toNat else l.take ((l.length : ℤ) + k).toNat

/-- Crowding distances are Python floats that are either finite or `+∞`
(`float('inf')`); `none` encodes `+∞`. -/
abbrev PyFloatInf := Option ℚ

/-- Addition of a finite float to a possibly infinite one
(`inf + d = inf`). -/
def pfAdd (c : PyFloatInf) (d : ℚ) : PyFloatInf := c.map (· + d)

/-- Strict `<` on possibly infinite floats (`x < inf` iff `x` finite,
`inf < x` never). -/
def pfLt (a b : PyFloatInf) : Bool :=
  match a, b with
  | some x, some y => decide (x < y)
  | some _, none => true
  | none, _ => false

/-- Order-theoretic `≤` on possibly infinite floats. -/
def pfLe (a b : PyFloatInf) : Bool := !(pfLt b a)

/-- Geographic coordinate (`src/domain/entities.py`, `Coordinate`):
latitude/longitude in decimal degrees. -/
structure Coordinate where
  lat : ℚ
  lng : ℚ
deriving DecidableEq, Repr

/-- Final route output (`src/domain/entities.py`, `RouteInfo`). -/
structure RouteInfo where
  route_id : ℤ
  coordinates : List Coordinate
  total_distance_km : ℚ
  traffic_light_count : ℤ
  shape_similarity : ℚ
deriving DecidableEq, Repr

/-- The transcendental geometry kernel abstracted out of the embedding.
`haversine lat1 lng1 lat2 lng2` models the spherical distance formula
(`R·2·asin(sqrt(...))` with Earth radius 6371 km) that appears verbatim in
`Node.distance_to`, `ShapeDistanceCalculator._haversine_distance` and
`AStarPathFinder._haversine`; `cosDeg`/`sinDeg` model
`math.cos(math.radians θ)` / `math.sin(math.radians θ)` used by
`ShapeTransformer.rotate`. -/
structure Geo where
  haversine : ℚ → ℚ → ℚ → ℚ → ℚ
  cosDeg : ℚ → ℚ
  sinDeg : ℚ → ℚ

/-- Degenerate concrete instantiation of `Geo` used for witnesses: every
spherical distance is 0 and both trig functions are constantly 0. -/
def zeroGeo : Geo :=
  { haversine := fun _ _ _ _ => 0, cosDeg := fun _ => 0, sinDeg := fun _ => 0 }

/-- Road-network node (`src/data/entities.py`, `Node`). -/
structure Node where
  id : ℤ
  lat : ℚ
  lng : ℚ
  has_traffic_light : Bool
deriving DecidableEq, Repr

/-- Haversine distance between two nodes (`Node.distance_to`). -/
def Node.distance_to (geo : Geo) (a b : Node) : ℚ :=
  geo.haversine a.lat a.lng b.lat b.lng

/-- Road classes (`src/data/entities.py`, `RoadType`). -/
inductive RoadType where
  | primary | secondary | tertiary | residential
  | footway | path | cycleway | unknown
deriving DecidableEq, Repr

/-- Road-network edge (`src/data/entities.py`, `Edge`). -/
structure Edge where
  id : ℤ
  source_id : ℤ
  target_id : ℤ
  length_m : ℚ
  road_type : RoadType
  is_oneway : Bool
deriving DecidableEq, Repr

/-- Edge length in kilometres (`Edge.length_km`). -/
def Edge.length_km (e : Edge) : ℚ := e.length_m / 1000

/-- Insertion-ordered association-list update with Python-dict semantics:
replace in place if the key is present, append otherwise.  `key` extracts
the dictionary key of a value. -/
def dictUpsert {α : Type} (key : α → ℤ) (l : List α) (v : α) : List α :=
  if l.any (fun w => key w = key v) then
    l.map (fun w => if key w = key v then v else w)
  else l ++ [v]

/-- Road-network graph (`src/data/entities.py`, `RoadGraph`): node table,
edge table and derived adjacency.  The `adjacency` field models
`_adjacency : Dict[int, Set[int]]`; each neighbor set is a duplicate-free
list in insertion order. -/
structure RoadGraph where
  nodes : List Node
  edges : List Edge
  adjacency : List (ℤ × List ℤ)
deriving DecidableEq, Repr

/-- The empty graph (`RoadGraph()`). -/
def RoadGraph.empty : RoadGraph := ⟨[], [], []⟩

/-- Look up an adjacency entry (`self._adjacency.get(node_id, set())`
returns `none` here when the key is absent). -/
def adjFind (adj : List (ℤ × List ℤ)) (k : ℤ) : Option (List ℤ) :=
  (adj.find? (fun p => p.1 = k)).map (·.2)

/-- Ensure an adjacency key exists, bound to the empty set if new. -/
def adjEnsure (adj : List (ℤ × List ℤ)) (k : ℤ) : List (ℤ × List ℤ) :=
  if adj.any (fun p => p.1 = k) then adj else adj ++ [(k, [])]

/-- Add a member to the neighbor set stored under key `k`
(`self._adjacency[k].add(v)`; a set add is a no-op on a present member). -/
def adjAdd (adj : List (ℤ × List ℤ)) (k v : ℤ) : List (ℤ × List ℤ) :=
  adj.map (fun p =>
    if p.1 = k then (p.1, if v ∈ p.2 then p.2 else p.2 ++ [v]) else p)

/-- `RoadGraph.add_node`: store the node and make sure it has an
adjacency entry. -/
def RoadGraph.add_node (g : RoadGraph) (n : Node) : RoadGraph :=
  { g with
    nodes := dictUpsert Node.id g.nodes n
    adjacency := adjEnsure g.adjacency n.id }

/-- `RoadGraph.add_edge`: store the edge and update the adjacency lists,
in both directions when the edge is two-way. -/
def RoadGraph.add_edge (g : RoadGraph) (e : Edge) : RoadGraph :=
  let adj := adjEnsure (adjEnsure g.adjacency e.source_id) e.target_id
  let adj := adjAdd adj e.source_id e.target_id
  let adj := if e.is_oneway then adj else adjAdd adj e.target_id e.source_id
  { g with
    edges := dictUpsert Edge.id g.edges e
    adjacency := adj }

/-- `RoadGraph.get_node`: dictionary lookup by node id. -/
def RoadGraph.get_node (g : RoadGraph) (node_id : ℤ) : Option Node :=
  g.nodes.find? (fun n => n.id = node_id)

/-- `RoadGraph.get_neighbors`: the neighbor ids of a node, the empty set
when the node is unknown. -/
def RoadGraph.get_neighbors (g : RoadGraph) (node_id : ℤ) : List ℤ :=
  (adjFind g.adjacency node_id).getD []

/-- `RoadGraph.get_edge_between`: scan the edge table in insertion order
and return the first edge matching `(source, target)` directly, or in
reverse when the edge is two-way. -/
def RoadGraph.get_edge_between (g : RoadGraph) (source_id target_id : ℤ) :
    Option Edge :=
  g.edges.find? (fun e =>
    (e.source_id = source_id && e.target_id = target_id) ||
    (!e.is_oneway && e.source_id = target_id && e.target_id = source_id))

/-- `RoadGraph.find_nearest_node`: brute-force strict-minimum scan of the
node table, seeded with distance `+∞`; earlier nodes win ties. -/
def RoadGraph.find_nearest_node (geo : Geo) (g : RoadGraph) (lat lng : ℚ) :
    Option Node :=
  let temp : Node := ⟨-1, lat, lng, false⟩
  g.nodes.foldl
    (fun best n =>
      match best with
      | none => some (temp.distance_to geo n, n)
      | some (d, _) =>
          let d' := temp.distance_to geo n
          if d' < d then some (d', n) else best)
    none |>.map (·.2)

/-! ### Cost kernel (`src/cost/cost_function.py`) -/

/-- Result record of a full-path cost evaluation (`CostResult`). -/
structure CostResult where
  shape_distance : ℚ
  length_penalty : ℚ
  crossing_penalty : ℚ
  total_cost : ℚ
  path_length_km : ℚ
  traffic_light_count : ℤ
deriving DecidableEq, Repr

/-- State of a validated `ShapeDistanceCalculator`. -/
structure ShapeDistanceCalculator where
  target_curve : List Coordinate
  target_distance_km : ℚ
deriving DecidableEq, Repr

/-- `ShapeDistanceCalculator.__init__`: rejects a curve with fewer than
two points, then a nonpositive target distance. -/
def mkShapeDistanceCalculator (target_curve : List Coordinate)
    (target_distance_km : ℚ) : Except PyErr ShapeDistanceCalculator :=
  if target_curve.length < 2 then .error .valueError
  else if target_distance_km ≤ 0 then .error .valueError
  else .ok ⟨target_curve, target_distance_km⟩

/-- `ShapeDistanceCalculator._point_to_segment_distance`: project the
point onto the segment in the `(lng, lat)` plane with clamp `t ∈ [0,1]`,
then take the haversine distance to the projection; a degenerate segment
is treated as a point. -/
def pointToSegmentDistance (geo : Geo) (point seg_start seg_end : Coordinate) : ℚ :=
  let dx := seg_end.lng - seg_start.lng
  let dy := seg_end.lat - seg_start.lat
  let seg_len_sq := dx * dx + dy * dy
  if seg_len_sq = 0 then
    geo.haversine point.lat point.lng seg_start.lat seg_start.lng
  else
    let t := max 0 (min 1
      (((point.lng - seg_start.lng) * dx + (point.lat - seg_start.lat) * dy)
        / seg_len_sq))
    let proj_lat := seg_start.lat + t * dy
    let proj_lng := seg_start.lng + t * dx
    geo.haversine point.lat point.lng proj_lat proj_lng

/-- Consecutive pairs of a list (the segments of a polyline, the loop
`for i in range(len(xs) - 1)` over `(xs[i], xs[i+1])`). -/
def consecPairs {α : Type} : List α → List (α × α)
  | [] => []
  | [_] => []
  | a :: b :: rest => (a, b) :: consecPairs (b :: rest)

/-- `ShapeDistanceCalculator._point_to_curve_distance`: minimum of the
point-to-segment distances over the curve's segments.  The Python loop
starts from `float('inf')`; the constructor guarantees at least one
segment, so the fold below starts from the first segment's distance (the
empty-curve default 0 is unreachable through a validated calculator). -/
def pointToCurveDistance (geo : Geo) (sdc : ShapeDistanceCalculator)
    (point : Coordinate) : ℚ :=
  match (consecPairs sdc.target_curve).map
      (fun s => pointToSegmentDistance geo point s.1 s.2) with
  | [] => 0
  | d :: rest => rest.foldl min d

/-- `ShapeDistanceCalculator._sample_edge_points`: `min_samples` points
linearly interpolated between the two nodes, with parameter
`t = i/(min_samples − 1)` (or `t = 1/2` if only one sample). -/
def sampleEdgePoints (node1 node2 : Node) (min_samples : ℤ) : List Coordinate :=
  (List.range min_samples.toNat).map (fun i =>
    let t : ℚ := if 1 < min_samples then (i : ℚ) / ((min_samples : ℚ) - 1) else 1/2
    ⟨node1.lat + t * (node2.lat - node1.lat),
     node1.lng + t * (node2.lng - node1.lng)⟩)

/-- `ShapeDistanceCalculator.calculate_edge_distance`: the mean of the
sample points' minimum distances to the target curve (0 for an empty
sample list). -/
def calculateEdgeDistance (geo : Geo) (sdc : ShapeDistanceCalculator)
    (node1 node2 : Node) : ℚ :=
  let samples := sampleEdgePoints node1 node2 3
  let total := samples.foldl (fun acc s => acc + pointToCurveDistance geo sdc s) 0
  if samples.length = 0 then 0 else total / samples.length

/-- `ShapeDistanceCalculator.calculate_path_distance`: sum the edge shape
distances over consecutive path pairs whose BOTH endpoint nodes resolve in
the graph; other pairs contribute nothing. -/
def calculatePathDistance (geo : Geo) (sdc : ShapeDistanceCalculator)
    (path : List ℤ) (g : RoadGraph) : ℚ :=
  if path.length < 2 then 0
  else
    (consecPairs path).foldl
      (fun acc p =>
        match g.get_node p.1, g.get_node p.2 with
        | some n1, some n2 => acc + calculateEdgeDistance geo sdc n1 n2
        | _, _ => acc)
      0

/-- `ShapeDistanceCalculator.calculate_normalized_distance`: raw path
distance divided by the target distance. -/
def calculateNormalizedDistance (geo : Geo) (sdc : ShapeDistanceCalculator)
    (path : List ℤ) (g : RoadGraph) : ℚ :=
  calculatePathDistance geo sdc path g / sdc.target_distance_km

/-- State of a validated `LengthPenaltyCalculator`. -/
structure LengthPenaltyCalculator where
  target_distance_km : ℚ
deriving DecidableEq, Repr

/-- `LengthPenaltyCalculator.__init__`: rejects a nonpositive target
distance. -/
def mkLengthPenaltyCalculator (target_distance_km : ℚ) :
    Except PyErr LengthPenaltyCalculator :=
  if target_distance_km ≤ 0 then .error .valueError
  else .ok ⟨target_distance_km⟩

/-- `LengthPenaltyCalculator.calculate_path_length`: sum of stored-edge
lengths (km) over consecutive pairs; a pair without a stored edge
contributes nothing. -/
def calculatePathLength (path : List ℤ) (g : RoadGraph) : ℚ :=
  if path.length < 2 then 0
  else
    (consecPairs path).foldl
      (fun acc p =>
        match g.get_edge_between p.1 p.2 with
        | some e => acc + e.length_km
        | none => acc)
      0

/-- `LengthPenaltyCalculator.calculate_normalized_penalty`:
`|actual − target| / target`. -/
def calculateNormalizedLengthPenalty (lpc : LengthPenaltyCalculator)
    (path : List ℤ) (g : RoadGraph) : ℚ :=
  |calculatePathLength path g - lpc.target_distance_km| / lpc.target_distance_km

/-- State of a validated `CrossingPenaltyCalculator`. -/
structure CrossingPenaltyCalculator where
  max_crossings : ℤ
deriving DecidableEq, Repr

/-- `CrossingPenaltyCalculator.__init__`: rejects a negative crossing
budget. -/
def mkCrossingPenaltyCalculator (max_crossings : ℤ) :
    Except PyErr CrossingPenaltyCalculator :=
  if max_crossings < 0 then .error .valueError
  else .ok ⟨max_crossings⟩

/-- Intermediate entries of a path: everything except the first and last
index (`path[1:-1]`). -/
def innerPath (path : List ℤ) : List ℤ := (path.drop 1).dropLast

/-- `CrossingPenaltyCalculator.count_traffic_lights`: count intermediate
path entries that resolve to a node carrying the traffic-light flag; a
path of length at most two has no intermediates. -/
def countTrafficLights (path : List ℤ) (g : RoadGraph) : ℤ :=
  if path.length ≤ 2 then 0
  else ((innerPath path).filter (fun node_id =>
    match g.get_node node_id with
    | some n => n.has_traffic_light
    | none => false)).length

/-- `CrossingPenaltyCalculator.calculate_normalized_penalty`:
`max(0, count − budget) / (budget + 1)`. -/
def calculateNormalizedCrossingPenalty (cpc : CrossingPenaltyCalculator)
    (path : List ℤ) (g : RoadGraph) : ℚ :=
  (max 0 (countTrafficLights path g - cpc.max_crossings) : ℤ) /
    ((cpc.max_crossings : ℚ) + 1)

/-- State of a validated `CostCalculator`: the three sub-calculators plus
the weight triple. -/
structure CostCalculator where
  shape_calculator : ShapeDistanceCalculator
  length_calculator : LengthPenaltyCalculator
  crossing_calculator : CrossingPenaltyCalculator
  weights : ℚ × ℚ × ℚ
  target_distance_km : ℚ
deriving DecidableEq, Repr

/-- `CostCalculator.__init__`: builds the three sub-calculators in order
(shape first, then length, then crossing), propagating the first
validation failure. -/
def mkCostCalculator (target_curve : List Coordinate) (target_distance_km : ℚ)
    (max_crossings : ℤ) (weights : ℚ × ℚ × ℚ) : Except PyErr CostCalculator := do
  let shape ← mkShapeDistanceCalculator target_curve target_distance_km
  let length ← mkLengthPenaltyCalculator target_distance_km
  let crossing ← mkCrossingPenaltyCalculator max_crossings
  return ⟨shape, length, crossing, weights, target_distance_km⟩

/-- `CostCalculator.calculate`: rejects a path with fewer than two nodes,
otherwise returns the three normalized sub-costs, the weighted total, the
realized length and the realized signal count. -/
def CostCalculator.calculate (geo : Geo) (cc : CostCalculator) (path : List ℤ)
    (g : RoadGraph) : Except PyErr CostResult :=
  if path.length < 2 then .error .valueError
  else
    let shape_distance := calculateNormalizedDistance geo cc.shape_calculator path g
    let length_penalty := calculateNormalizedLengthPenalty cc.length_calculator path g
    let crossing_penalty :=
      calculateNormalizedCrossingPenalty cc.crossing_calculator path g
    let total_cost := cc.weights.1 * shape_distance +
      cc.weights.2.1 * length_penalty + cc.weights.2.2 * crossing_penalty
    .ok
      { shape_distance := shape_distance
        length_penalty := length_penalty
        crossing_penalty := crossing_penalty
        total_cost := total_cost
        path_length_km := calculatePathLength path g
        traffic_light_count := countTrafficLights path g }

/-- `CostCalculator.calculate_edge_cost`: the A* step cost of traversing
`edge` from `node1` to `node2`. -/
def CostCalculator.calculate_edge_cost (geo : Geo) (cc : CostCalculator)
    (node1 node2 : Node) (edge : Edge) : ℚ :=
  let shape_cost :=
    calculateEdgeDistance geo cc.shape_calculator node1 node2 / cc.target_distance_km
  let length_cost := edge.length_km / cc.target_distance_km
  let crossing_cost : ℚ :=
    if node2.has_traffic_light then
      1 / ((cc.crossing_calculator.max_crossings : ℚ) + 1)
    else 0
  cc.weights.1 * shape_cost + cc.weights.2.1 * length_cost +
    cc.weights.2.2 * crossing_cost

/-! ### Pareto filter (`src/algorithm/pareto.py`) -/

/-- Path candidate produced by A* (`src/algorithm/astar.py`,
`PathCandidate`). -/
structure PathCandidate where
  path : List ℤ
  g_cost : ℚ
  f_cost : ℚ
  shape_distance : ℚ
  length_penalty : ℚ
  crossing_penalty : ℚ
  path_length_km : ℚ
  traffic_light_count : ℤ
deriving DecidableEq, Repr

/-- The inner loop of `ParetoFilter.dominates` over zipped objective
pairs: a strictly larger component fails immediately; otherwise the
"some component strictly smaller" flag accumulates. -/
def dominatesLoop : List (ℚ × ℚ) → Bool → Bool
  | [], any_lt => any_lt
  | (v1, v2) :: rest, any_lt =>
      if v2 < v1 then false else dominatesLoop rest (any_lt || decide (v1 < v2))

/-- `ParetoFilter.dominates`: `obj1` dominates `obj2` iff every component
of `obj1` is ≤ the matching component of `obj2` and at least one is
strictly smaller; mismatched dimensions raise `ValueError`. -/
def dominates (obj1 obj2 : List ℚ) : Except PyErr Bool :=
  if obj1.length ≠ obj2.length then .error .valueError
  else .ok (dominatesLoop (obj1.zip obj2) false)

/-- Objective triples as the 3-element tuples the filter manipulates. -/
def objList (o : ℚ × ℚ × ℚ) : List ℚ := [o.1, o.2.1, o.2.2]

/-- Domination decision on objective triples.  Dimensions always agree,
so the `ValueError` branch of `dominates` is unreachable here and the
default `false` is dead. -/
def dominatesB (o1 o2 : ℚ × ℚ × ℚ) : Bool :=
  match dominates (objList o1) (objList o2) with
  | .ok b => b
  | .error _ => false

/-- Annotated Pareto candidate (`ParetoCandidate`). -/
structure ParetoCandidate where
  path_candidate : PathCandidate
  objectives : ℚ × ℚ × ℚ
  rank : ℤ
  crowding_distance : PyFloatInf
deriving DecidableEq, Repr

/-- `ParetoCandidate.from_path_candidate`: objectives are the normalized
triple (shape distance, length penalty, crossing penalty). -/
def fromPathCandidate (c : PathCandidate) : ParetoCandidate :=
  ⟨c, (c.shape_distance, c.length_penalty, c.crossing_penalty), 0, some 0⟩

/-- `ParetoFilter.filter_non_dominated`: keep the candidates that no
other candidate (at a different list position) dominates. -/
def filterNonDominated (cands : List PathCandidate) : List ParetoCandidate :=
  if cands.isEmpty then []
  else
    let pcs := (cands.map fromPathCandidate).enum
    (pcs.filter (fun ic =>
      !(pcs.any (fun jo =>
        jo.1 ≠ ic.1 && dominatesB jo.2.objectives ic.2.objectives)))).map (·.2)

/-- Component `m` of an objective triple (`objectives[m]`, `m < 3`). -/
def objAt (o : ℚ × ℚ × ℚ) : ℕ → ℚ
  | 0 => o.1
  | 1 => o.2.1
  | _ => o.2.2

/-- Overwrite the crowding distance of the candidate at index `i`. -/
def setCrowdAt (l : List ParetoCandidate) (i : ℕ) (v : PyFloatInf) :
    List ParetoCandidate :=
  match l.get? i with
  | some c => l.set i { c with crowding_distance := v }
  | none => l

/-- Add a finite increment to the crowding distance of the candidate at
index `i` (`inf` absorbs the increment, as for Python floats). -/
def addCrowdAt (l : List ParetoCandidate) (i : ℕ) (d : ℚ) :
    List ParetoCandidate :=
  match l.get? i with
  | some c => l.set i { c with crowding_distance := pfAdd c.crowding_distance d }
  | none => l

/-- `ParetoFilter.calculate_crowding_distance`: for at most two
candidates everything is `+∞`; otherwise reset to 0 and, per objective
dimension, sort the indices by that objective (`sorted` in Python is a
stable sort, modelled by the stable `List.insertionSort`), set both extremes to `+∞`, and add the normalized
neighbour gap to each interior candidate, skipping dimensions of zero
range.  Crowding updates never change `objectives`, so the sort keys may
be read from the working list. -/
def calcCrowding (cands : List ParetoCandidate) : List ParetoCandidate :=
  if cands.length ≤ 2 then
    cands.map (fun c => { c with crowding_distance := none })
  else
    let n := cands.length
    let init := cands.map (fun c => { c with crowding_distance := some 0 })
    [0, 1, 2].foldl
      (fun work m =>
        let key : ℕ → ℚ := fun i =>
          match work.get? i with
          | some c => objAt c.objectives m
          | none => 0
        let idxs := (List.range n).insertionSort (fun i j => key i ≤ key j)
        let first := idxs.headD 0
        let lastI := idxs.getLastD 0
        let work1 := setCrowdAt (setCrowdAt work first none) lastI none
        let obj_range := key lastI - key first
        if obj_range = 0 then work1
        else
          (List.range' 1 (n - 2)).foldl
            (fun w i =>
              let prev_idx := idxs.getD (i - 1) 0
              let curr_idx := idxs.getD i 0
              let next_idx := idxs.getD (i + 1) 0
              addCrowdAt w curr_idx ((key next_idx - key prev_idx) / obj_range))
            work1)
      init

/-- `ParetoFilter.select_top_k`: a list of at most `k` candidates is
returned as is; otherwise the non-dominated front is extracted and
returned whole when it has at most `k` members; otherwise the front is
sorted by crowding distance, descending and stable
(`list.sort(..., reverse=True)` in Python, modelled by the stable
`List.insertionSort`), and the first `k` are returned. -/
def select_top_k (cands : List PathCandidate) (k : ℤ) : List PathCandidate :=
  if cands.isEmpty then []
  else if (cands.length : ℤ) ≤ k then cands
  else
    let front := filterNonDominated cands
    if (front.length : ℤ) ≤ k then front.map (·.path_candidate)
    else
      let fc := calcCrowding front
      let sorted := fc.insertionSort
        (fun a b => pfLe b.crowding_distance a.crowding_distance = true)
      (pySliceTo sorted k).map (·.path_candidate)

/-! ### Python `heapq` (as used for the A* open set)

`heapq` maintains a binary min-heap in a plain list, comparing elements
with `<` only.  `A*`'s `PriorityItem` is a `@dataclass(order=True)` whose
every field except `priority` is `field(compare=False)`, so `<` on items
compares the `priority` (f-cost) field alone. -/

section Heapq

variable {α : Type} (lt : α → α → Bool)

/-- `heapq._siftdown(heap, startpos, pos)` with `newitem = heap[pos]`:
climb towards the root while the new item is strictly smaller than its
parent, shifting parents down, and finally store the new item.

The recursion is structural on an explicit `fuel` so that the definition
evaluates by kernel reduction; the climb moves strictly towards the root
(`(pos−1)/2 < pos`), so every call site passes `fuel = pos + 1`, which
always suffices, and the fuel-exhausted branch is dead. -/
def siftdown (fuel : ℕ) (heap : List α) (startpos pos : ℕ) (newitem : α) :
    List α :=
  match fuel with
  | 0 => heap.set pos newitem
  | fuel + 1 =>
      if startpos < pos then
        let parentpos := (pos - 1) / 2
        let parent := heap.getD parentpos newitem
        if lt newitem parent then
          siftdown fuel (heap.set pos parent) startpos parentpos newitem
        else heap.set pos newitem
      else heap.set pos newitem

/-- `heapq.heappush`: append, then sift the new leaf down towards the
root. -/
def heappush (heap : List α) (item : α) : List α :=
  siftdown lt (heap.length + 1) (heap ++ [item]) 0 heap.length item

/-- Child selection of `heapq._siftup`: the left child, unless a right
child exists and the left one is not strictly smaller (`d` is a dead
default for the in-bounds reads). -/
def pickChild (heap : List α) (pos : ℕ) (d : α) : ℕ :=
  if 2 * pos + 2 < heap.length ∧
      ¬ lt (heap.getD (2 * pos + 1) d) (heap.getD (2 * pos + 2) d) then
    2 * pos + 2
  else 2 * pos + 1

theorem pos_lt_pickChild (heap : List α) (pos : ℕ) (d : α) :
    pos < pickChild lt heap pos d := by
  unfold pickChild; split <;> omega

theorem pickChild_lt_length (heap : List α) (pos : ℕ) (d : α)
    (h : 2 * pos + 1 < heap.length) : pickChild lt heap pos d < heap.length := by
  unfold pickChild; split <;> omega

/-- The loop of `heapq._siftup(heap, pos)`: bubble the smaller child up
into the hole until reaching a position without children, place the new
item there, and sift it down towards the root.

As for `siftdown`, the recursion is structural on `fuel`; the hole moves
strictly away from the root while staying inside the list, so
`fuel = heap.length` always suffices and the fuel-exhausted branch is
dead. -/
def siftupLoop (fuel : ℕ) (heap : List α) (pos : ℕ) (newitem : α)
    (startpos : ℕ) : List α :=
  match fuel with
  | 0 => heap.set pos newitem
  | fuel + 1 =>
      if 2 * pos + 1 < heap.length then
        let childpos := pickChild lt heap pos newitem
        let child := heap.getD childpos newitem
        siftupLoop fuel (heap.set pos child) childpos newitem startpos
      else siftdown lt (pos + 1) (heap.set pos newitem) startpos pos newitem

/-- `heapq._siftup(heap, pos)`: reads `newitem = heap[pos]` and runs the
loop with `startpos = pos`. -/
def siftup (heap : List α) (pos : ℕ) : List α :=
  match heap.get? pos with
  | some newitem => siftupLoop lt heap.length heap pos newitem pos
  | none => heap

/-- `heapq.heappop`: pop the last element; if the heap is still nonempty
return its root, move the last element into the root slot and restore the
heap with `_siftup`.  Returns `none` on an empty heap (Python raises
`IndexError`; the A* loop never pops an empty heap). -/
def heappop : List α → Option (α × List α)
  | [] => none
  | [x] => some (x, [])
  | x :: y :: rest =>
      let lastelt := (y :: rest).getLastD y
      let heap1 := ((x :: y :: rest).dropLast).set 0 lastelt
      some (x, siftup lt heap1 0)

end Heapq

/-! ### A* path finder (`src/algorithm/astar.py`) -/

/-- Open-set entry (`PriorityItem`).  The Python class is
`@dataclass(order=True)` with every field except `priority` marked
`field(compare=False)`, so items compare by `priority` (the f-cost)
alone; there is no insertion counter. -/
structure PriorityItem where
  priority : ℚ
  node_id : ℤ
  path : List ℤ
  g_cost : ℚ
  path_length_km : ℚ
  traffic_light_count : ℤ
deriving DecidableEq, Repr

/-- The `<` generated for `PriorityItem`: comparison of the `priority`
fields only. -/
def itemLt (a b : PriorityItem) : Bool := decide (a.priority < b.priority)

/-- Association-list upsert with Python-dict semantics for arbitrary
keys (used for the A* `visited` dictionary). -/
def assocUpsert {κ β : Type} [DecidableEq κ] (l : List (κ × β)) (k : κ) (v : β) :
    List (κ × β) :=
  if l.any (fun p => p.1 = k) then
    l.map (fun p => if p.1 = k then (k, v) else p)
  else l ++ [(k, v)]

/-- A* search state (`AStarPathFinder.__init__` fields). -/
structure AStarPathFinder where
  graph : RoadGraph
  target_curve : List Coordinate
  target_distance_km : ℚ
  max_crossings : ℤ
  weights : ℚ × ℚ × ℚ
  cost_calculator : CostCalculator

/-- `AStarPathFinder.__init__`: stores the arguments and builds the cost
calculator, propagating its validation failures. -/
def mkAStarPathFinder (graph : RoadGraph) (target_curve : List Coordinate)
    (target_distance_km : ℚ) (max_crossings : ℤ) (weights : ℚ × ℚ × ℚ) :
    Except PyErr AStarPathFinder := do
  let cc ← mkCostCalculator target_curve target_distance_km max_crossings weights
  return ⟨graph, target_curve, target_distance_km, max_crossings, weights, cc⟩

/-- `AStarPathFinder._point_to_segment_distance`: the A* module's own
copy of the planar-projection distance, written with latitude as the
first plane axis. -/
def astarPointToSegmentDistance (geo : Geo) (px py x1 y1 x2 y2 : ℚ) : ℚ :=
  let dx := x2 - x1
  let dy := y2 - y1
  if dx = 0 ∧ dy = 0 then geo.haversine px py x1 y1
  else
    let t := max 0 (min 1 (((px - x1) * dx + (py - y1) * dy) / (dx * dx + dy * dy)))
    geo.haversine px py (x1 + t * dx) (y1 + t * dy)

/-- `AStarPathFinder._min_distance_to_curve`: minimum point-to-segment
distance over the curve's segments.  The Python loop starts from
`float('inf')`; `find_path` only runs with the validated (≥ 2 point)
curve of its cost calculator, so the fold starts from the first segment
and the empty default is dead. -/
def minDistanceToCurve (geo : Geo) (F : AStarPathFinder) (node : Node) : ℚ :=
  match (consecPairs F.target_curve).map (fun s =>
      astarPointToSegmentDistance geo node.lat node.lng
        s.1.lat s.1.lng s.2.lat s.2.lng) with
  | [] => 0
  | d :: rest => rest.foldl min d

/-- `AStarPathFinder._heuristic`: weighted curve-distance and
remaining-length estimate, scaled by 0.5; the crossing weight is omitted. -/
def AStarPathFinder.heuristic (geo : Geo) (F : AStarPathFinder)
    (current_node goal_node : Node) (current_length : ℚ) : ℚ :=
  let dist_to_goal := current_node.distance_to geo goal_node
  let remaining := max 0 (F.target_distance_km - current_length)
  let min_curve_dist := minDistanceToCurve geo F current_node
  let h := F.weights.1 * (min_curve_dist / F.target_distance_km) +
    F.weights.2.1 * (|remaining - dist_to_goal| / F.target_distance_km)
  h * (1 / 2)

/-- One loop of `AStarPathFinder.find_path`, with `fuel` pops remaining
(`iterations < max_iterations`).  `best` carries `(best_cost,
best_candidate)`; `none` is the initial `best_cost = inf` state.  The
closure branch calls the full cost evaluation, whose `ValueError` branch
is unreachable there because the closed path has more than 3 entries; the
dead branch conservatively keeps the current best. -/
def findPathLoop (geo : Geo) (F : AStarPathFinder) (start_node : Node)
    (start_id : ℤ) : List PriorityItem → List ((ℤ × ℤ) × ℚ) →
    Option (ℚ × PathCandidate) → ℕ → Option PathCandidate
  | _, _, best, 0 => best.map (·.2)
  | openSet, visited, best, fuel + 1 =>
    match heappop itemLt openSet with
    | none => best.map (·.2)
    | some (current, openSet') =>
      if current.node_id = start_id ∧ 3 < current.path.length then
        match F.cost_calculator.calculate geo current.path F.graph with
        | .ok cost_result =>
            let cand : PathCandidate :=
              { path := current.path
                g_cost := current.g_cost
                f_cost := cost_result.total_cost
                shape_distance := cost_result.shape_distance
                length_penalty := cost_result.length_penalty
                crossing_penalty := cost_result.crossing_penalty
                path_length_km := cost_result.path_length_km
                traffic_light_count := cost_result.traffic_light_count }
            let best' :=
              match best with
              | none => some (cost_result.total_cost, cand)
              | some (bc, _) =>
                  if cost_result.total_cost < bc then
                    some (cost_result.total_cost, cand)
                  else best
            findPathLoop geo F start_node start_id openSet' visited best' fuel
        | .error _ =>
            findPathLoop geo F start_node start_id openSet' visited best fuel
      else
        let length_bucket := pyTrunc (current.path_length_km * 10)
        let visit_key := (current.node_id, length_bucket)
        let skip : Bool :=
          match visited.find? (fun kv => kv.1 = visit_key) with
          | some kv => decide (kv.2 ≤ current.g_cost)
          | none => false
        match skip with
        | true =>
          findPathLoop geo F start_node start_id openSet' visited best fuel
        | false =>
          let visited' := assocUpsert visited visit_key current.g_cost
          match F.graph.get_node current.node_id with
          | none => findPathLoop geo F start_node start_id openSet' visited' best fuel
          | some current_node =>
            let openSet'' :=
              (F.graph.get_neighbors current.node_id).foldl
                (fun os neighbor_id =>
                  if neighbor_id ∈ current.path.drop 1 then os
                  else
                    match F.graph.get_node neighbor_id with
                    | none => os
                    | some neighbor_node =>
                      match F.graph.get_edge_between current.node_id neighbor_id with
                      | none => os
                      | some edge =>
                        let new_path := current.path ++ [neighbor_id]
                        let new_length := current.path_length_km + edge.length_km
                        let new_lights :=
                          if neighbor_node.has_traffic_light ∧
                              neighbor_id ≠ start_id then
                            current.traffic_light_count + 1
                          else current.traffic_light_count
                        let edge_cost := F.cost_calculator.calculate_edge_cost geo
                          current_node neighbor_node edge
                        let new_g := current.g_cost + edge_cost
                        let h_cost := F.heuristic geo neighbor_node start_node
                          new_length
                        heappush itemLt os
                          ⟨new_g + h_cost, neighbor_id, new_path, new_g,
                           new_length, new_lights⟩)
                openSet'
            findPathLoop geo F start_node start_id openSet'' visited' best fuel

/-- `AStarPathFinder.find_path`: closed-walk search from
`start_node_id`, budgeted by `max_iterations` pops. -/
def AStarPathFinder.find_path (geo : Geo) (F : AStarPathFinder)
    (start_node_id : ℤ) (max_iterations : ℤ) : Option PathCandidate :=
  match F.graph.get_node start_node_id with
  | none => none
  | some start_node =>
      let init : PriorityItem := ⟨0, start_node_id, [start_node_id], 0, 0, 0⟩
      findPathLoop geo F start_node start_node_id (heappush itemLt [] init) []
        none max_iterations.toNat

/-! ### Weight sampler (`src/algorithm/weight_sampler.py`) -/

/-- A weight triple (`WeightVector` dataclass fields).  In Python every
construction runs `__post_init__` (the `np.isclose` sum check), modelled
by `mkWeightVector` below. -/
structure WeightVector where
  alpha : ℚ
  beta : ℚ
  gamma : ℚ
deriving DecidableEq, Repr

/-- `WeightVector.to_tuple`. -/
def WeightVector.to_tuple (w : WeightVector) : ℚ × ℚ × ℚ :=
  (w.alpha, w.beta, w.gamma)

/-- `np.isclose(a, b, atol)` with numpy's default relative tolerance
`rtol = 1e-5`: `|a − b| ≤ atol + rtol·|b|`. -/
def npIsClose (a b atol rtol : ℚ) : Bool := decide (|a - b| ≤ atol + rtol * |b|)

/-- numpy's default `rtol`. -/
def npRtolDefault : ℚ := 1 / 100000

/-- `WeightVector.__post_init__`: accepts the vector iff
`np.isclose(α+β+γ, 1.0, atol=1e-6)`; no sign condition is checked. -/
def mkWeightVector (alpha beta gamma : ℚ) : Except PyErr WeightVector :=
  if npIsClose (alpha + beta + gamma) 1 (1 / 1000000) npRtolDefault then
    .ok ⟨alpha, beta, gamma⟩
  else .error .valueError

/-- An output row of `np.random.Generator.dirichlet((1,1,1))`: numpy
guarantees a nonnegative triple summing to 1.  The generator itself is
external to the core, so its successive outputs are modelled as an
abstract stream of such triples. -/
abbrev Simplex3 := {t : ℚ × ℚ × ℚ // 0 ≤ t.1 ∧ 0 ≤ t.2.1 ∧ 0 ≤ t.2.2 ∧ t.1 + t.2.1 + t.2.2 = 1}

/-- `WeightSampler` state: the stream of Dirichlet rows its generator
will produce. -/
structure WeightSampler where
  rng : ℕ → Simplex3

/-- `WeightSampler.__init__(seed)` with
`np.random.default_rng(seed)`: a concrete seed selects a reproducible
stream (`prng seed`); `seed=None` draws a stream from OS entropy,
modelled by the ambient `entropy` argument. -/
def mkWeightSampler (prng : ℤ → ℕ → Simplex3) (entropy : ℕ → Simplex3)
    (seed : Option ℤ) : WeightSampler :=
  ⟨match seed with
   | some s => prng s
   | none => entropy⟩

/-- Left-to-right effectful map in `Except` (a Python list comprehension
whose body may raise: the first exception propagates). -/
def exceptMap {β : Type} (f : ℕ → Except PyErr β) : List ℕ → Except PyErr (List β)
  | [] => .ok []
  | i :: rest => do
      let b ← f i
      let out ← exceptMap f rest
      return b :: out

/-- `WeightSampler.sample`: rejects a nonpositive count, otherwise draws
`n_samples` Dirichlet rows and validates each through the `WeightVector`
constructor. -/
def WeightSampler.sample (ws : WeightSampler) (n_samples : ℤ) :
    Except PyErr (List WeightVector) :=
  if n_samples ≤ 0 then .error .valueError
  else
    exceptMap (fun i =>
        mkWeightVector (ws.rng i).val.1 (ws.rng i).val.2.1 (ws.rng i).val.2.2)
      (List.range n_samples.toNat)

/-- `WeightSampler.get_corner_weights`: three corner-heavy triples and a
near-balanced one.  Each passes the constructor check (their sums are
exactly 1), see `cornerWeights_accepted`. -/
def cornerWeights : List WeightVector :=
  [⟨8/10, 1/10, 1/10⟩, ⟨1/10, 8/10, 1/10⟩, ⟨1/10, 1/10, 8/10⟩,
   ⟨34/100, 33/100, 33/100⟩]

/-- `WeightSampler.sample_with_corners`: the four corners followed by
`n_samples` Dirichlet draws (the caller passes the number of additional
draws). -/
def WeightSampler.sample_with_corners (ws : WeightSampler) (n_samples : ℤ) :
    Except PyErr (List WeightVector) := do
  let additional ← ws.sample n_samples
  return cornerWeights ++ additional

/-! ### Route finder (`src/algorithm/route_finder.py`) -/

/-- `RouteSearchConfig` (defaults as in the dataclass).  It has no seed
field; `RouteFinder.__init__` always constructs `WeightSampler()`
unseeded. -/
structure RouteSearchConfig where
  n_weight_samples : ℤ
  n_rotations : ℤ
  max_iterations : ℤ
  max_results : ℤ
  use_parallel : Bool
  max_workers : ℤ
deriving DecidableEq, Repr

/-- The dataclass defaults of `RouteSearchConfig`. -/
def defaultRouteSearchConfig : RouteSearchConfig :=
  ⟨20, 6, 10000, 5, true, 4⟩

/-- `RouteFinder._find_start_node`.  For every node with at least two
neighbors the Python loop evaluates `node.distance_to_coord(...)`, a
method that `data.entities.Node` does not define, so the first such node
raises `AttributeError`.  Only when no intersection node exists does the
loop fall through to the `find_nearest_node` fallback, whose result id is
returned (or `None` when the graph is empty). -/
def findStartNode (geo : Geo) (g : RoadGraph) (target_curve : List Coordinate) :
    Except PyErr (Option ℤ) :=
  match target_curve with
  | [] => .ok none
  | c1 :: _ =>
      if g.nodes.any (fun n => 2 ≤ (g.get_neighbors n.id).length) then
        .error .attributeError
      else .ok ((g.find_nearest_node geo c1.lat c1.lng).map (·.id))

/-- `ShapeTransformer.rotate`: rotate plane points about `center` by
`angle_deg` degrees. -/
def rotatePoints (geo : Geo) (points : List (ℚ × ℚ)) (angle_deg : ℚ)
    (center : ℚ × ℚ) : List (ℚ × ℚ) :=
  let cos_a := geo.cosDeg angle_deg
  let sin_a := geo.sinDeg angle_deg
  points.map (fun p =>
    let dx := p.1 - center.1
    let dy := p.2 - center.2
    (dx * cos_a - dy * sin_a + center.1, dx * sin_a + dy * cos_a + center.2))

/-- `RouteFinder._generate_rotated_curves`: translate to the centroid
plane, rotate by the first `n_rotations` angles of
`{0°,60°,120°,180°,240°,300°}` and map back to geographic coordinates. -/
def generateRotatedCurves (geo : Geo) (cfg : RouteSearchConfig)
    (target_curve : List Coordinate) : List (List Coordinate) :=
  let n : ℚ := target_curve.length
  let center_lat := (target_curve.foldl (fun acc c => acc + c.lat) 0) / n
  let center_lng := (target_curve.foldl (fun acc c => acc + c.lng) 0) / n
  let normalized := target_curve.map (fun c => (c.lng - center_lng, c.lat - center_lat))
  let angles := pySliceTo ([0, 60, 120, 180, 240, 300] : List ℚ) cfg.n_rotations
  angles.map (fun angle =>
    (rotatePoints geo normalized angle (0, 0)).map (fun p =>
      Coordinate.mk (center_lat + p.2) (center_lng + p.1)))

/-- `RouteFinder._search_single`: build an A* finder for one
(rotated curve, weight) pair and run the closed-walk search; the finder
constructor's validation failures propagate. -/
def searchSingle (geo : Geo) (g : RoadGraph) (cfg : RouteSearchConfig)
    (curve : List Coordinate) (w : WeightVector) (target_distance_km : ℚ)
    (max_crossings : ℤ) (start_node_id : ℤ) :
    Except PyErr (Option PathCandidate) := do
  let pf ← mkAStarPathFinder g curve target_distance_km max_crossings w.to_tuple
  return pf.find_path geo start_node_id cfg.max_iterations

/-- `RouteFinder._search_sequential`: curve-major, weight-minor sweep
collecting the non-`None` candidates in order. -/
def searchSequential (geo : Geo) (g : RoadGraph) (cfg : RouteSearchConfig)
    (rotated_curves : List (List Coordinate)) (weights : List WeightVector)
    (target_distance_km : ℚ) (max_crossings : ℤ) (start_node_id : ℤ) :
    Except PyErr (List PathCandidate) :=
  rotated_curves.foldlM
    (fun acc curve =>
      weights.foldlM
        (fun acc2 w => do
          let c ← searchSingle geo g cfg curve w target_distance_km
            max_crossings start_node_id
          return (match c with
            | some cand => acc2 ++ [cand]
            | none => acc2))
        acc)
    []

/-- `RouteFinder._to_route_infos`: resolve each candidate path to a
coordinate polyline (ids unknown to the graph are skipped), number the
routes from 1 in order, and set `shape_similarity = 1/(1+shape_distance)`. -/
def toRouteInfos (g : RoadGraph) (cands : List PathCandidate) : List RouteInfo :=
  cands.enum.map (fun ic =>
    { route_id := (ic.1 : ℤ) + 1
      coordinates := (ic.2.path.filterMap g.get_node).map (fun n =>
        Coordinate.mk n.lat n.lng)
      total_distance_km := ic.2.path_length_km
      traffic_light_count := ic.2.traffic_light_count
      shape_similarity := 1 / (1 + ic.2.shape_distance) })

/-- `RouteFinder.find_routes` in the sequential execution mode
(`use_parallel=False`): curve validation, start-node selection (an id of
0 is falsy in `if not start_node`, so it is treated as "no start
found"), unseeded weight sampling (`entropy` is the OS-entropy stream
behind `np.random.default_rng(None)`), rotation sweep, Pareto top-K and
conversion.  The `use_parallel=True` branch runs the same per-pair
searches through a thread pool and collects them in completion order
while swallowing worker exceptions; that scheduling nondeterminism is
outside this embedding. -/
def findRoutes (geo : Geo) (g : RoadGraph) (cfg : RouteSearchConfig)
    (entropy : ℕ → Simplex3) (target_curve : List Coordinate)
    (target_distance_km : ℚ) (max_crossings : ℤ) (start_opt : Option ℤ) :
    Except PyErr (List RouteInfo) := do
  if target_curve.length < 2 then return []
  let startRes : Option ℤ ←
    match start_opt with
    | some sid => pure (some sid)
    | none => do
        let sn ← findStartNode geo g target_curve
        pure (match sn with
          | none => none
          | some sid => if sid = 0 then none else some sid)
  match startRes with
  | none => return []
  | some start_node_id =>
    let weights ← WeightSampler.sample_with_corners ⟨entropy⟩
      (cfg.n_weight_samples - 4)
    let rotated_curves := generateRotatedCurves geo cfg target_curve
    let all_candidates ← searchSequential geo g cfg rotated_curves weights
      target_distance_km max_crossings start_node_id
    let top_candidates := select_top_k all_candidates cfg.max_results
    return toRouteInfos g top_candidates

/-! ### Helper lemmas -/

theorem dominates_objList (x y : ℚ × ℚ × ℚ) :
    dominates (objList x) (objList y) = .ok (dominatesB x y) := by
  simp [dominates, dominatesB, objList]

theorem dominatesB_iff (o1 o2 : ℚ × ℚ × ℚ) :
    dominatesB o1 o2 = true ↔
      (o1.1 ≤ o2.1 ∧ o1.2.1 ≤ o2.2.1 ∧ o1.2.2 ≤ o2.2.2) ∧
      (o1.1 < o2.1 ∨ o1.2.1 < o2.2.1 ∨ o1.2.2 < o2.2.2) := by
  obtain ⟨a1, a2, a3⟩ := o1
  obtain ⟨b1, b2, b3⟩ := o2
  simp only [dominatesB, dominates, objList, List.length_cons, List.length_nil,
    List.zip, List.zipWith, dominatesLoop]
  split_ifs with h1 h2 h3 <;>
    simp_all [Bool.or_eq_true, decide_eq_true_eq, not_lt] <;>
    constructor <;> intro h <;> first
      | (exact absurd h1 (not_lt.mpr (by tauto)))
      | tauto

/-- C9: the domination relation of `ParetoFilter.dominates` — every
objective ≤ and at least one strictly < — is irreflexive, transitive and
asymmetric on objective triples. -/
theorem dominates_irrefl_trans_asymm (a b c : ℚ × ℚ × ℚ) :
    dominates (objList a) (objList a) = .ok false ∧
    (dominates (objList a) (objList b) = .ok true →
      dominates (objList b) (objList c) = .ok true →
      dominates (objList a) (objList c) = .ok true) ∧
    (dominates (objList a) (objList b) = .ok true →
      dominates (objList b) (objList a) = .ok false) := by
  have hspec : ∀ x y : ℚ × ℚ × ℚ,
      dominates (objList x) (objList y) = .ok true ↔
        (x.1 ≤ y.1 ∧ x.2.1 ≤ y.2.1 ∧ x.2.2 ≤ y.2.2) ∧
        (x.1 < y.1 ∨ x.2.1 < y.2.1 ∨ x.2.2 < y.2.2) := by
    intro x y
    rw [dominates_objList]
    simpa using dominatesB_iff x y
  have hfalse : ∀ x y : ℚ × ℚ × ℚ,
      ¬ (dominates (objList x) (objList y) = .ok true) →
        dominates (objList x) (objList y) = .ok false := by
    intro x y h
    rw [dominates_objList] at h ⊢
    cases hb : dominatesB x y with
    | true => exact absurd (by rw [hb]) h
    | false => rfl
  refine ⟨?_, ?_, ?_⟩
  · refine hfalse a a ?_
    rw [hspec]
    rintro ⟨-, h | h | h⟩ <;> exact lt_irrefl _ h
  · intro hab hbc
    rw [hspec] at hab hbc ⊢
    obtain ⟨⟨le1, le2, le3⟩, hlt⟩ := hab
    obtain ⟨⟨le1', le2', le3'⟩, -⟩ := hbc
    refine ⟨⟨le1.trans le1', le2.trans le2', le3.trans le3'⟩, ?_⟩
    rcases hlt with h | h | h
    · exact Or.inl (h.trans_le le1')
    · exact Or.inr (Or.inl (h.trans_le le2'))
    · exact Or.inr (Or.inr (h.trans_le le3'))
  · intro hab
    rw [hspec] at hab
    refine hfalse b a ?_
    rw [hspec]
    rintro ⟨⟨le1, le2, le3⟩, -⟩
    obtain ⟨-, h | h | h⟩ := hab
    · exact absurd le1 (not_le.mpr h)
    · exact absurd le2 (not_le.mpr h)
    · exact absurd le3 (not_le.mpr h)

/-- Witness for C9: concrete triples exercising every hypothesis of
`dominates_irrefl_trans_asymm`. -/
theorem dominates_irrefl_trans_asymm_witness :
    dominates (objList (0, 0, 0)) (objList (0, 0, 0)) = .ok false ∧
    dominates (objList (0, 0, 1)) (objList (2, 2, 2)) = .ok true ∧
    dominates (objList (1, 1, 1)) (objList (0, 0, 1)) = .ok false :=
  ⟨(dominates_irrefl_trans_asymm (0, 0, 0) (0, 0, 0) (0, 0, 0)).1,
   (dominates_irrefl_trans_asymm (0, 0, 1) (1, 1, 1) (2, 2, 2)).2.1
     (by decide) (by decide),
   (dominates_irrefl_trans_asymm (0, 0, 1) (1, 1, 1) (0, 0, 0)).2.2
     (by decide)⟩

theorem mkCostCalculator_eq (curve : List Coordinate) (L : ℚ) (K : ℤ)
    (w : ℚ × ℚ × ℚ) :
    mkCostCalculator curve L K w =
      if curve.length < 2 then .error .valueError
      else if L ≤ 0 then .error .valueError
      else if K < 0 then .error .valueError
      else .ok ⟨⟨curve, L⟩, ⟨L⟩, ⟨K⟩, w, L⟩ := by
  simp only [mkCostCalculator, mkShapeDistanceCalculator,
    mkLengthPenaltyCalculator, mkCrossingPenaltyCalculator]
  split_ifs <;> rfl

/-- C5: the cost kernel fails with `ValueError` exactly when the curve
has fewer than two points, the target distance is nonpositive, or the
crossing budget is negative (all at construction), and a validated
calculator's `calculate` fails exactly on paths with fewer than two
nodes. -/
theorem costKernel_validation (curve : List Coordinate) (L : ℚ) (K : ℤ)
    (w : ℚ × ℚ × ℚ) :
    ((∃ e, mkCostCalculator curve L K w = .error e) ↔
      curve.length < 2 ∨ L ≤ 0 ∨ K < 0) ∧
    (∀ e, mkCostCalculator curve L K w = .error e → e = .valueError) ∧
    (∀ cc, mkCostCalculator curve L K w = .ok cc →
      ∀ (geo : Geo) (path : List ℤ) (g : RoadGraph),
        cc.calculate geo path g = .error .valueError ↔ path.length < 2) := by
  rw [mkCostCalculator_eq]
  refine ⟨?_, ?_, ?_⟩
  · split_ifs with h1 h2 h3 <;> simp_all
  · intro e
    split_ifs <;> simp_all
  · intro cc hcc geo path g
    unfold CostCalculator.calculate
    split_ifs with h <;> simp [h]

/-- Witness for C5: a valid construction whose evaluation accepts a
two-node path and rejects a one-node path, plus a failing construction. -/
theorem costKernel_validation_witness :
    ((∃ e, mkCostCalculator [⟨0, 0⟩, ⟨1, 1⟩] 1 0 (1, 1, 1) = .error e) ↔
      ([⟨0, 0⟩, ⟨1, 1⟩] : List Coordinate).length < 2 ∨ (1 : ℚ) ≤ 0 ∨ (0 : ℤ) < 0) ∧
    (CostCalculator.calculate zeroGeo ⟨⟨[⟨0, 0⟩, ⟨1, 1⟩], 1⟩, ⟨1⟩, ⟨0⟩, (1, 1, 1), 1⟩
        [7] RoadGraph.empty = .error .valueError ↔
      ([7] : List ℤ).length < 2) :=
  ⟨(costKernel_validation [⟨0, 0⟩, ⟨1, 1⟩] 1 0 (1, 1, 1)).1,
   (costKernel_validation [⟨0, 0⟩, ⟨1, 1⟩] 1 0 (1, 1, 1)).2.2
     ⟨⟨[⟨0, 0⟩, ⟨1, 1⟩], 1⟩, ⟨1⟩, ⟨0⟩, (1, 1, 1), 1⟩ (by decide) zeroGeo
     [7] RoadGraph.empty⟩

/-- C10: for any graph (walk or not), a validated calculator's
`calculate` fails exactly on paths with fewer than two ids and returns
normally otherwise; a consecutive pair without a stored edge contributes
zero length, a pair whose first node id is unknown contributes no shape
distance, and an unknown intermediate id is not counted as a traffic
light. -/
theorem calculate_total_on_nonwalks (geo : Geo) (cc : CostCalculator)
    (g : RoadGraph) :
    (∀ path : List ℤ, (∃ r, cc.calculate geo path g = .ok r) ↔ 2 ≤ path.length) ∧
    (∀ path : List ℤ, cc.calculate geo path g = .error .valueError ↔
      path.length < 2) ∧
    (∀ u v rest, g.get_edge_between u v = none →
      calculatePathLength (u :: v :: rest) g = calculatePathLength (v :: rest) g) ∧
    (∀ u v rest, g.get_node u = none →
      calculatePathDistance geo cc.shape_calculator (u :: v :: rest) g =
        calculatePathDistance geo cc.shape_calculator (v :: rest) g) ∧
    (∀ x u rest, rest ≠ [] → g.get_node u = none →
      countTrafficLights (x :: u :: rest) g = countTrafficLights (x :: rest) g) := by
  refine ⟨?_, ?_, ?_, ?_, ?_⟩
  · intro path
    unfold CostCalculator.calculate
    split_ifs with h <;> simp <;> omega
  · intro path
    unfold CostCalculator.calculate
    split_ifs with h <;> simp [h]
  · intro u v rest h
    unfold calculatePathLength
    rcases rest with _ | ⟨r, rs⟩
    · simp [consecPairs, h]
    · simp only [consecPairs, List.length_cons]
      rw [if_neg (by omega), if_neg (by omega)]
      simp [h]
  · intro u v rest h
    unfold calculatePathDistance
    rcases rest with _ | ⟨r, rs⟩
    · simp [consecPairs, h]
    · simp only [consecPairs, List.length_cons]
      rw [if_neg (by omega), if_neg (by omega)]
      simp [h]
  · intro x u rest hne h
    rcases rest with _ | ⟨r, rs⟩
    · exact absurd rfl hne
    · unfold countTrafficLights innerPath
      rcases rs with _ | ⟨r2, rs2⟩
      · simp [h]
      · simp only [List.length_cons, List.drop_one, List.tail_cons]
        rw [if_neg (by omega), if_neg (by omega),
          List.dropLast_cons₂, List.dropLast_cons₂]
        simp [h]

/-- Witness for C10: a calculator over the empty graph accepts the
two-id path `[5, 6]` although neither id exists, and the three
zero-contribution equations hold on concrete non-walk paths. -/
theorem calculate_total_on_nonwalks_witness :
    (∃ r, CostCalculator.calculate zeroGeo
      ⟨⟨[⟨0, 0⟩, ⟨1, 1⟩], 1⟩, ⟨1⟩, ⟨0⟩, (1, 1, 1), 1⟩ [5, 6] RoadGraph.empty =
        .ok r) ∧
    calculatePathLength [5, 6, 7] RoadGraph.empty =
      calculatePathLength [6, 7] RoadGraph.empty ∧
    calculatePathDistance zeroGeo ⟨[⟨0, 0⟩, ⟨1, 1⟩], 1⟩ [5, 6, 7] RoadGraph.empty =
      calculatePathDistance zeroGeo ⟨[⟨0, 0⟩, ⟨1, 1⟩], 1⟩ [6, 7] RoadGraph.empty ∧
    countTrafficLights [5, 6, 7] RoadGraph.empty =
      countTrafficLights [5, 7] RoadGraph.empty :=
  ⟨((calculate_total_on_nonwalks zeroGeo
      ⟨⟨[⟨0, 0⟩, ⟨1, 1⟩], 1⟩, ⟨1⟩, ⟨0⟩, (1, 1, 1), 1⟩ RoadGraph.empty).1
      [5, 6]).mpr (by decide),
   (calculate_total_on_nonwalks zeroGeo
      ⟨⟨[⟨0, 0⟩, ⟨1, 1⟩], 1⟩, ⟨1⟩, ⟨0⟩, (1, 1, 1), 1⟩ RoadGraph.empty).2.2.1
      5 6 [7] (by decide),
   (calculate_total_on_nonwalks zeroGeo
      ⟨⟨[⟨0, 0⟩, ⟨1, 1⟩], 1⟩, ⟨1⟩, ⟨0⟩, (1, 1, 1), 1⟩ RoadGraph.empty).2.2.2.1
      5 6 [7] (by decide),
   (calculate_total_on_nonwalks zeroGeo
      ⟨⟨[⟨0, 0⟩, ⟨1, 1⟩], 1⟩, ⟨1⟩, ⟨0⟩, (1, 1, 1), 1⟩ RoadGraph.empty).2.2.2.2
      5 6 [7] (by decide) (by decide)⟩

theorem exceptMap_all_ok {β : Type} (f : ℕ → Except PyErr β) (gf : ℕ → β)
    (l : List ℕ) (h : ∀ i ∈ l, f i = .ok (gf i)) :
    exceptMap f l = .ok (l.map gf) := by
  induction l with
  | nil => rfl
  | cons i rest ih =>
      have hi := h i (List.mem_cons_self i rest)
      have hr := ih (fun j hj => h j (List.mem_cons_of_mem i hj))
      simp [exceptMap, hi, hr, bind, Except.bind, pure, Except.pure]

theorem exceptMap_ok_mem {β : Type} (f : ℕ → Except PyErr β) :
    ∀ (l : List ℕ) (out : List β), exceptMap f l = .ok out →
      ∀ b ∈ out, ∃ i ∈ l, f i = .ok b := by
  intro l
  induction l with
  | nil =>
      intro out h b hb
      simp only [exceptMap] at h
      cases h
      simp at hb
  | cons i rest ih =>
      intro out h b hb
      simp only [exceptMap, bind, Except.bind] at h
      cases hi : f i with
      | error e => rw [hi] at h; cases h
      | ok bi =>
          rw [hi] at h
          cases hrest : exceptMap f rest with
          | error e => rw [hrest] at h; cases h
          | ok outr =>
              rw [hrest] at h
              cases h
              rcases List.mem_cons.mp hb with hb | hb
              · exact ⟨i, List.mem_cons_self i rest, hb ▸ hi⟩
              · obtain ⟨j, hj, hfj⟩ := ih outr hrest b hb
                exact ⟨j, List.mem_cons_of_mem i hj, hfj⟩

theorem mkWeightVector_simplex (s : Simplex3) :
    mkWeightVector s.val.1 s.val.2.1 s.val.2.2 =
      .ok ⟨s.val.1, s.val.2.1, s.val.2.2⟩ := by
  unfold mkWeightVector
  rw [if_pos]
  unfold npIsClose npRtolDefault
  rw [s.prop.2.2.2]
  norm_num

theorem sample_rejects_nonpositive (ws : WeightSampler) (m : ℤ) (h : m ≤ 0) :
    ws.sample m = .error .valueError := by
  unfold WeightSampler.sample
  rw [if_pos h]

/-- C8: the weight sampler rejects a nonpositive requested draw count
with `ValueError`; a "with corners" sample of total size `n > 4`
(invoked, as `find_routes` does, with `n − 4` additional draws) succeeds
and is exactly the four corner vectors followed by the `n − 4` Dirichlet
draws of the generator stream. -/
theorem sample_with_corners_spec (ws : WeightSampler) :
    (∀ m : ℤ, m ≤ 0 → ws.sample m = .error .valueError) ∧
    (∀ n : ℤ, 4 < n → ∃ l, ws.sample_with_corners (n - 4) = .ok l ∧
      (l.length : ℤ) = n ∧ l.take 4 = cornerWeights ∧
      l.drop 4 = (List.range (n - 4).toNat).map (fun i =>
        WeightVector.mk (ws.rng i).val.1 (ws.rng i).val.2.1 (ws.rng i).val.2.2)) := by
  refine ⟨sample_rejects_nonpositive ws, ?_⟩
  intro n hn
  have hsample : ws.sample (n - 4) = .ok ((List.range (n - 4).toNat).map
      (fun i => WeightVector.mk (ws.rng i).val.1 (ws.rng i).val.2.1
        (ws.rng i).val.2.2)) := by
    unfold WeightSampler.sample
    rw [if_neg (by omega)]
    exact exceptMap_all_ok _ _ _ (fun i _ => mkWeightVector_simplex (ws.rng i))
  refine ⟨cornerWeights ++ (List.range (n - 4).toNat).map
      (fun i => WeightVector.mk (ws.rng i).val.1 (ws.rng i).val.2.1
        (ws.rng i).val.2.2), ?_, ?_, ?_, ?_⟩
  · unfold WeightSampler.sample_with_corners
    simp [hsample, bind, Except.bind, pure, Except.pure]
  · have : (n - 4).toNat = (n - 4) := Int.toNat_of_nonneg (by omega)
    simp [cornerWeights, this]
    omega
  · rfl
  · rfl

/-- Dirichlet rows used to instantiate generator streams in witnesses. -/
def simplexA : Simplex3 := ⟨(1, 0, 0), by norm_num⟩

/-- A second concrete Dirichlet row. -/
def simplexB : Simplex3 := ⟨(0, 1, 0), by norm_num⟩

/-- A third concrete Dirichlet row. -/
def simplexC : Simplex3 := ⟨(0, 0, 1), by norm_num⟩

/-- Witness for C8: a sampler with a constant generator stream rejects a
requested count of 0 and returns, for total size 6, the four corners
followed by two identical Dirichlet draws. -/
theorem sample_with_corners_spec_witness :
    WeightSampler.sample ⟨fun _ => simplexA⟩ 0 = .error .valueError ∧
    ∃ l, WeightSampler.sample_with_corners ⟨fun _ => simplexA⟩ (6 - 4) = .ok l ∧
      (l.length : ℤ) = 6 ∧ l.take 4 = cornerWeights ∧
      l.drop 4 = (List.range ((6 : ℤ) - 4).toNat).map (fun i =>
        WeightVector.mk ((⟨fun _ => simplexA⟩ : WeightSampler).rng i).val.1
          ((⟨fun _ => simplexA⟩ : WeightSampler).rng i).val.2.1
          ((⟨fun _ => simplexA⟩ : WeightSampler).rng i).val.2.2) :=
  ⟨(sample_with_corners_spec ⟨fun _ => simplexA⟩).1 0 (by decide),
   (sample_with_corners_spec ⟨fun _ => simplexA⟩).2 6 (by decide)⟩

/-- C6 counterexample: the `WeightVector` constructor accepts
`(2, −1, 0)`, which has a negative component and so lies off the
2-simplex, and also accepts `(1 + 10⁻⁵, 0, 0)`, whose component sum
deviates from 1 by more than the claimed 10⁻⁶ tolerance. -/
theorem weightVector_constructor_off_simplex :
    mkWeightVector 2 (-1) 0 = .ok ⟨2, -1, 0⟩ ∧ ((-1 : ℚ) < 0) ∧
    mkWeightVector (1 + 1/100000) 0 0 = .ok ⟨1 + 1/100000, 0, 0⟩ ∧
    (1 : ℚ)/1000000 < |(1 + 1/100000) + 0 + 0 - 1| := by
  refine ⟨?_, by norm_num, ?_, by decide⟩ <;>
    · unfold mkWeightVector npIsClose npRtolDefault
      rw [if_pos (by decide)]

theorem mkWeightVector_of_sum_one (a b g : ℚ) (h : a + b + g = 1) :
    mkWeightVector a b g = .ok ⟨a, b, g⟩ := by
  unfold mkWeightVector npIsClose npRtolDefault
  rw [h]
  norm_num

theorem mkWeightVector_ok_elim {a b g : ℚ} {w : WeightVector}
    (h : mkWeightVector a b g = .ok w) : w = ⟨a, b, g⟩ := by
  unfold mkWeightVector at h
  split_ifs at h
  cases h
  rfl

/-- C6 amended: the constructor accepts exactly the vectors whose
component sum is within `10⁻⁶ + 10⁻⁵` of 1 (the `atol=1e-6` of
`np.isclose` plus numpy's default `rtol=1e-5`), with no sign check, so
accepted vectors need not lie on the simplex; the four corner vectors
and every vector a sampler returns (corners plus Dirichlet rows, which
are nonnegative and sum to 1) do lie on the simplex. -/
theorem weightVector_validation_amended :
    (∀ a b g : ℚ, (∃ w, mkWeightVector a b g = .ok w) ↔
      |a + b + g - 1| ≤ 1/1000000 + 1/100000) ∧
    (∀ w ∈ cornerWeights, (∃ w', mkWeightVector w.alpha w.beta w.gamma = .ok w') ∧
      0 ≤ w.alpha ∧ 0 ≤ w.beta ∧ 0 ≤ w.gamma ∧ w.alpha + w.beta + w.gamma = 1) ∧
    (∀ (ws : WeightSampler) (n : ℤ) (l : List WeightVector),
      ws.sample_with_corners n = .ok l →
      ∀ w ∈ l, 0 ≤ w.alpha ∧ 0 ≤ w.beta ∧ 0 ≤ w.gamma ∧
        w.alpha + w.beta + w.gamma = 1) := by
  have hcorner : ∀ w ∈ cornerWeights,
      (∃ w', mkWeightVector w.alpha w.beta w.gamma = .ok w') ∧
      0 ≤ w.alpha ∧ 0 ≤ w.beta ∧ 0 ≤ w.gamma ∧ w.alpha + w.beta + w.gamma = 1 := by
    intro w hw
    simp only [cornerWeights, List.mem_cons, List.not_mem_nil, or_false] at hw
    rcases hw with h | h | h | h <;> subst h <;>
      exact ⟨⟨_, mkWeightVector_of_sum_one _ _ _ (by decide)⟩, by decide⟩
  refine ⟨?_, hcorner, ?_⟩
  · intro a b g
    unfold mkWeightVector npIsClose npRtolDefault
    split_ifs with h
    · simpa using h
    · simp only [decide_eq_true_eq, not_le] at h
      constructor
      · rintro ⟨w, hw⟩
        cases hw
      · intro hle
        exact absurd hle (by push_neg; simpa using h)
  · intro ws n l hl w hw
    unfold WeightSampler.sample_with_corners at hl
    cases hs : ws.sample n with
    | error e => rw [hs] at hl; cases hl
    | ok additional =>
        rw [hs] at hl
        simp only [bind, Except.bind, pure, Except.pure, Except.ok.injEq] at hl
        subst hl
        rcases List.mem_append.mp hw with hw | hw
        · exact (hcorner w hw).2
        · unfold WeightSampler.sample at hs
          split_ifs at hs
          obtain ⟨i, -, hfi⟩ := exceptMap_ok_mem _ _ _ hs w hw
          have := mkWeightVector_ok_elim hfi
          subst this
          obtain ⟨h1, h2, h3, h4⟩ := (ws.rng i).prop
          exact ⟨h1, h2, h3, h4⟩

/-- Witness for the amended C6: a concrete accepted vector, a corner
vector on the simplex, and a sampler output (corner draws plus one
Dirichlet row) on the simplex. -/
theorem weightVector_validation_amended_witness :
    (∃ w, mkWeightVector (1/2) (1/4) (1/4) = .ok w) ∧
    (0 ≤ (WeightVector.mk (8/10) (1/10) (1/10)).alpha ∧
     0 ≤ (WeightVector.mk (8/10) (1/10) (1/10)).beta ∧
     0 ≤ (WeightVector.mk (8/10) (1/10) (1/10)).gamma ∧
     (WeightVector.mk (8/10) (1/10) (1/10)).alpha +
       (WeightVector.mk (8/10) (1/10) (1/10)).beta +
       (WeightVector.mk (8/10) (1/10) (1/10)).gamma = 1) ∧
    (0 ≤ (WeightVector.mk 0 1 0).alpha ∧ 0 ≤ (WeightVector.mk 0 1 0).beta ∧
     0 ≤ (WeightVector.mk 0 1 0).gamma ∧
     (WeightVector.mk 0 1 0).alpha + (WeightVector.mk 0 1 0).beta +
       (WeightVector.mk 0 1 0).gamma = 1) :=
  ⟨(weightVector_validation_amended.1 (1/2) (1/4) (1/4)).mpr (by decide),
   (weightVector_validation_amended.2.1 ⟨8/10, 1/10, 1/10⟩ (by decide)).2,
   weightVector_validation_amended.2.2 ⟨fun _ => simplexB⟩ 1
     (cornerWeights ++ [⟨0, 1, 0⟩]) (by decide) ⟨0, 1, 0⟩ (by decide)⟩

/-- C1: `_find_start_node` never selects an intersection node.  The loop
body evaluates `node.distance_to_coord(...)` for every node with at
least two neighbors, but `data.entities.Node` defines no such method, so
the first candidate intersection raises `AttributeError` — contradicting
the repository's own `test_find_start_node`, which expects a node id on
a 5×5 grid graph.  Consequently `find_routes` called without a start
node id on such a graph propagates the exception instead of selecting
the haversine-nearest intersection. -/
theorem findStartNode_attributeError (geo : Geo) (g : RoadGraph)
    (curve : List Coordinate) (hcurve : 2 ≤ curve.length)
    (hint : ∃ n ∈ g.nodes, 2 ≤ (g.get_neighbors n.id).length) :
    findStartNode geo g curve = .error .attributeError ∧
    (∀ (cfg : RouteSearchConfig) (entropy : ℕ → Simplex3) (L : ℚ) (K : ℤ),
      findRoutes geo g cfg entropy curve L K none = .error .attributeError) := by
  have hfsn : findStartNode geo g curve = .error .attributeError := by
    rcases curve with _ | ⟨c1, rest⟩
    · simp at hcurve
    · show (if (g.nodes.any fun n => decide (2 ≤ (g.get_neighbors n.id).length)) = true
          then (.error .attributeError : Except PyErr (Option ℤ))
          else .ok ((g.find_nearest_node geo c1.lat c1.lng).map (·.id))) =
        .error .attributeError
      rw [if_pos]
      obtain ⟨n, hn, h2⟩ := hint
      exact List.any_eq_true.mpr ⟨n, hn, by simpa using h2⟩
  refine ⟨hfsn, ?_⟩
  intro cfg entropy L K
  unfold findRoutes
  rw [if_neg (by omega)]
  simp [hfsn, bind, Except.bind, pure, Except.pure]

/-- Triangle graph: three nodes, each with two neighbors (a candidate
intersection), the failing input for C1. -/
def triGraph : RoadGraph :=
  (((((RoadGraph.empty.add_node ⟨1, 0, 0, false⟩).add_node
    ⟨2, 1, 0, false⟩).add_node ⟨3, 0, 1, false⟩).add_edge
    ⟨1, 1, 2, 100, .unknown, false⟩).add_edge
    ⟨2, 2, 3, 100, .unknown, false⟩).add_edge ⟨3, 3, 1, 100, .unknown, false⟩

/-- Witness for C1 at the failing input: on the triangle graph, start
selection and hence `find_routes` without a start id raise
`AttributeError`. -/
theorem findStartNode_attributeError_witness :
    findStartNode zeroGeo triGraph [⟨0, 0⟩, ⟨1, 1⟩] = .error .attributeError ∧
    findRoutes zeroGeo triGraph defaultRouteSearchConfig (fun _ => simplexA)
      [⟨0, 0⟩, ⟨1, 1⟩] 1 0 none = .error .attributeError :=
  ⟨(findStartNode_attributeError zeroGeo triGraph [⟨0, 0⟩, ⟨1, 1⟩] (by decide)
      ⟨⟨1, 0, 0, false⟩, by decide, by decide⟩).1,
   (findStartNode_attributeError zeroGeo triGraph [⟨0, 0⟩, ⟨1, 1⟩] (by decide)
      ⟨⟨1, 0, 0, false⟩, by decide, by decide⟩).2
     defaultRouteSearchConfig (fun _ => simplexA) 1 0⟩

theorem dominatesB_irrefl (o : ℚ × ℚ × ℚ) : dominatesB o o = false := by
  rw [Bool.eq_false_iff]
  intro h
  rcases (dominatesB_iff o o).mp h with ⟨-, h1 | h1 | h1⟩ <;> exact lt_irrefl _ h1

theorem mem_filterNonDominated {cands : List PathCandidate}
    {pc : ParetoCandidate} (h : pc ∈ filterNonDominated cands) :
    pc.path_candidate ∈ cands ∧ pc = fromPathCandidate pc.path_candidate ∧
    ∀ d ∈ cands,
      dominatesB (fromPathCandidate d).objectives pc.objectives = false := by
  unfold filterNonDominated at h
  split_ifs at h with hemp
  · simp at h
  · obtain ⟨⟨i, y⟩, hmem, rfl⟩ := List.mem_map.mp h
    obtain ⟨henum, hpred⟩ := List.mem_filter.mp hmem
    rw [List.mem_enum_iff_getElem?] at henum
    simp only [List.getElem?_map] at henum
    cases hci : cands[i]? with
    | none => rw [hci] at henum; cases henum
    | some ci =>
        rw [hci] at henum
        obtain rfl : fromPathCandidate ci = y := by simpa using henum
        have hciMem : ci ∈ cands := List.getElem?_mem hci
        refine ⟨hciMem, rfl, ?_⟩
        intro d hd
        obtain ⟨j, hj⟩ := List.mem_iff_get?.mp hd
        rw [List.get?_eq_getElem?] at hj
        have hjenum : (j, fromPathCandidate d) ∈ (cands.map fromPathCandidate).enum := by
          rw [List.mem_enum_iff_getElem?]
          simp [List.getElem?_map, hj]
        have hpred' : ∀ (a : ℕ) (b : ParetoCandidate),
            (a, b) ∈ (List.map fromPathCandidate cands).enum → ¬a = i →
            dominatesB b.objectives (fromPathCandidate ci).objectives = false := by
          simpa using hpred
        by_cases hji : j = i
        · subst hji
          rw [hj] at hci
          cases hci
          exact dominatesB_irrefl _
        · exact hpred' j (fromPathCandidate d) hjenum hji

/-- Projection of a Pareto candidate to the components the crowding pass
never modifies. -/
def pcProj (pc : ParetoCandidate) : PathCandidate × (ℚ × ℚ × ℚ) :=
  (pc.path_candidate, pc.objectives)

theorem set_get?_self {β : Type} :
    ∀ (l : List β) (i : ℕ) (a : β), l.get? i = some a → l.set i a = l
  | [], _, _, h => by cases h
  | b :: t, 0, a, h => by
      cases h
      rfl
  | b :: t, i + 1, a, h => by
      simp only [List.get?_cons_succ] at h
      simp [List.set_cons_succ, set_get?_self t i a h]

theorem setCrowdAt_map_proj (l : List ParetoCandidate) (i : ℕ) (v : PyFloatInf) :
    (setCrowdAt l i v).map pcProj = l.map pcProj := by
  unfold setCrowdAt
  cases h : l.get? i with
  | none => rfl
  | some c =>
      rw [List.map_set]
      exact set_get?_self _ _ _ (by rw [List.get?_map, h]; rfl)

theorem addCrowdAt_map_proj (l : List ParetoCandidate) (i : ℕ) (d : ℚ) :
    (addCrowdAt l i d).map pcProj = l.map pcProj := by
  unfold addCrowdAt
  cases h : l.get? i with
  | none => rfl
  | some c =>
      rw [List.map_set]
      exact set_get?_self _ _ _ (by rw [List.get?_map, h]; rfl)

theorem foldl_map_proj_eq {β : Type}
    (step : List ParetoCandidate → β → List ParetoCandidate)
    (hstep : ∀ w b, (step w b).map pcProj = w.map pcProj) :
    ∀ (bs : List β) (w : List ParetoCandidate),
      ((bs.foldl step w).map pcProj) = w.map pcProj
  | [], w => rfl
  | b :: bs, w => by
      rw [List.foldl_cons, foldl_map_proj_eq step hstep bs (step w b), hstep]

theorem calcCrowding_map_proj (l : List ParetoCandidate) :
    (calcCrowding l).map pcProj = l.map pcProj := by
  unfold calcCrowding
  split_ifs with h
  · simp [pcProj]
  · rw [foldl_map_proj_eq]
    · simp [pcProj]
    · intro w m
      dsimp only
      split_ifs with hr
      · rw [setCrowdAt_map_proj, setCrowdAt_map_proj]
      · rw [foldl_map_proj_eq]
        · rw [setCrowdAt_map_proj, setCrowdAt_map_proj]
        · intro w' i
          exact addCrowdAt_map_proj _ _ _

theorem calcCrowding_length (l : List ParetoCandidate) :
    (calcCrowding l).length = l.length := by
  have := congrArg List.length (calcCrowding_map_proj l)
  simpa using this

theorem pfLe_total (a b : PyFloatInf) : pfLe a b = true ∨ pfLe b a = true := by
  unfold pfLe pfLt
  cases a with
  | none => cases b <;> simp
  | some x =>
      cases b with
      | none => simp
      | some y =>
          rcases le_total x y with h | h <;> simp [not_lt.mpr h]

theorem pfLe_trans {a b c : PyFloatInf} (h1 : pfLe a b = true)
    (h2 : pfLe b c = true) : pfLe a c = true := by
  unfold pfLe pfLt at h1 h2 ⊢
  cases a <;> cases b <;> cases c <;> simp_all
  linarith

/-- C2 amended: whenever the input list has more than `k` candidates
(and `k ≥ 0`), every candidate `select_top_k` returns is non-dominated
within the input; the Pareto front is returned whole when it has at most
`k` members, and otherwise the result is the first `k` entries of a
stable descending-crowding ordering of the front — so the `k` selected
front members carry crowding distances at least those of every front
member left out.  (When the input has at most `k` candidates the method
returns the input unfiltered; see the counterexample.) -/
theorem select_top_k_amended (cands : List PathCandidate) (k : ℤ)
    (hk0 : 0 ≤ k) (hk : k < (cands.length : ℤ)) :
    (∀ c ∈ select_top_k cands k, ∀ d ∈ cands,
      dominatesB (fromPathCandidate d).objectives
        (fromPathCandidate c).objectives = false) ∧
    (((filterNonDominated cands).length : ℤ) ≤ k →
      select_top_k cands k = (filterNonDominated cands).map (·.path_candidate)) ∧
    (k < ((filterNonDominated cands).length : ℤ) →
      ∃ sorted : List ParetoCandidate,
        sorted.Perm (calcCrowding (filterNonDominated cands)) ∧
        List.Pairwise (fun a b =>
          pfLe b.crowding_distance a.crowding_distance = true) sorted ∧
        select_top_k cands k = (sorted.take k.toNat).map (·.path_candidate) ∧
        (select_top_k cands k).length = k.toNat ∧
        (∀ x ∈ sorted.take k.toNat, ∀ y ∈ sorted.drop k.toNat,
          pfLe y.crowding_distance x.crowding_distance = true)) := by
  have hne : ¬ cands.isEmpty = true := by
    cases cands with
    | nil => simp at hk; omega
    | cons a t => simp
  have hlen : ¬ ((cands.length : ℤ) ≤ k) := by omega
  have hfront : ∀ c, (∃ pc ∈ filterNonDominated cands, pc.path_candidate = c) →
      ∀ d ∈ cands, dominatesB (fromPathCandidate d).objectives
        (fromPathCandidate c).objectives = false := by
    rintro c ⟨pc, hpc, rfl⟩ d hd
    obtain ⟨-, heq, hdom⟩ := mem_filterNonDominated hpc
    rw [← heq]
    exact hdom d hd
  haveI instTot : IsTotal ParetoCandidate (fun a b =>
      pfLe b.crowding_distance a.crowding_distance = true) :=
    ⟨fun a b => (pfLe_total b.crowding_distance a.crowding_distance).elim
      Or.inl Or.inr⟩
  haveI instTrans : IsTrans ParetoCandidate (fun a b =>
      pfLe b.crowding_distance a.crowding_distance = true) :=
    ⟨fun _ _ _ h1 h2 => pfLe_trans h2 h1⟩
  by_cases hfk : ((filterNonDominated cands).length : ℤ) ≤ k
  · have hsel : select_top_k cands k =
        (filterNonDominated cands).map (·.path_candidate) := by
      unfold select_top_k
      rw [if_neg hne, if_neg hlen, if_pos hfk]
    refine ⟨?_, fun _ => hsel, fun h => absurd hfk (by omega)⟩
    intro c hc
    rw [hsel] at hc
    obtain ⟨pc, hpc, hpceq⟩ := List.mem_map.mp hc
    exact hfront c ⟨pc, hpc, hpceq⟩
  · have hsel : select_top_k cands k =
        (((calcCrowding (filterNonDominated cands)).insertionSort (fun a b =>
          pfLe b.crowding_distance a.crowding_distance = true)).take k.toNat).map
          (·.path_candidate) := by
      unfold select_top_k
      rw [if_neg hne, if_neg hlen, if_neg hfk]
      dsimp only
      unfold pySliceTo
      rw [if_pos hk0]
    have hperm := List.perm_insertionSort (fun a b : ParetoCandidate =>
      pfLe b.crowding_distance a.crowding_distance = true)
      (calcCrowding (filterNonDominated cands))
    have hsorted := List.sorted_insertionSort (fun a b : ParetoCandidate =>
      pfLe b.crowding_distance a.crowding_distance = true)
      (calcCrowding (filterNonDominated cands))
    have hmemFront : ∀ pc ∈ (calcCrowding (filterNonDominated cands)).insertionSort
        (fun a b => pfLe b.crowding_distance a.crowding_distance = true),
        ∃ q ∈ filterNonDominated cands,
          q.path_candidate = pc.path_candidate ∧ q.objectives = pc.objectives := by
      intro pc hpc
      have h1 : pc ∈ calcCrowding (filterNonDominated cands) := hperm.mem_iff.mp hpc
      have h2 : pcProj pc ∈ (calcCrowding (filterNonDominated cands)).map pcProj :=
        List.mem_map.mpr ⟨pc, h1, rfl⟩
      rw [calcCrowding_map_proj] at h2
      obtain ⟨q, hq, hqe⟩ := List.mem_map.mp h2
      exact ⟨q, hq, congrArg Prod.fst hqe, congrArg Prod.snd hqe⟩
    refine ⟨?_, fun h => absurd h hfk, fun h => ?_⟩
    · intro c hc
      rw [hsel] at hc
      obtain ⟨pc, hpc, rfl⟩ := List.mem_map.mp hc
      obtain ⟨q, hq, hq1, -⟩ :=
        hmemFront pc (List.mem_of_mem_take hpc)
      exact hfront pc.path_candidate ⟨q, hq, hq1⟩
    · refine ⟨(calcCrowding (filterNonDominated cands)).insertionSort (fun a b =>
        pfLe b.crowding_distance a.crowding_distance = true),
        hperm, hsorted, hsel, ?_, ?_⟩
      · rw [hsel]
        have hslen : ((calcCrowding (filterNonDominated cands)).insertionSort
            (fun a b => pfLe b.crowding_distance a.crowding_distance = true)).length =
            (filterNonDominated cands).length := by
          rw [hperm.length_eq, calcCrowding_length]
        simp only [List.length_map, List.length_take, hslen]
        omega
      · intro x hx y hy
        have := hsorted
        rw [← List.take_append_drop k.toNat
          ((calcCrowding (filterNonDominated cands)).insertionSort (fun a b =>
            pfLe b.crowding_distance a.crowding_distance = true))] at this
        exact (List.pairwise_append.mp this).2.2 x hx y hy

/-- C2 counterexample: with two candidates and `k = 5`,
`select_top_k` takes the `len(candidates) <= k` early return and hands
back the input unfiltered, including the second candidate, which the
first one dominates — so a returned candidate can be dominated within
the input list. -/
theorem select_top_k_returns_dominated :
    select_top_k [⟨[1], 0, 0, 0, 0, 0, 0, 0⟩, ⟨[2], 0, 0, 1, 1, 1, 0, 0⟩] 5 =
      [⟨[1], 0, 0, 0, 0, 0, 0, 0⟩, ⟨[2], 0, 0, 1, 1, 1, 0, 0⟩] ∧
    dominatesB (fromPathCandidate ⟨[1], 0, 0, 0, 0, 0, 0, 0⟩).objectives
      (fromPathCandidate ⟨[2], 0, 0, 1, 1, 1, 0, 0⟩).objectives = true := by
  decide

/-- Witness for the amended C2: three candidates with `k = 2`; the front
is a single candidate, so every selected candidate is non-dominated and
the front is returned whole. -/
theorem select_top_k_amended_witness :
    (0 : ℤ) ≤ 2 ∧
    (2 : ℤ) < (([⟨[1], 0, 0, 0, 0, 0, 0, 0⟩, ⟨[2], 0, 0, 1, 1, 1, 0, 0⟩,
      ⟨[3], 0, 0, 2, 2, 2, 0, 0⟩] : List PathCandidate).length : ℤ) ∧
    (∀ c ∈ select_top_k [⟨[1], 0, 0, 0, 0, 0, 0, 0⟩,
        ⟨[2], 0, 0, 1, 1, 1, 0, 0⟩, ⟨[3], 0, 0, 2, 2, 2, 0, 0⟩] 2,
      ∀ d ∈ ([⟨[1], 0, 0, 0, 0, 0, 0, 0⟩, ⟨[2], 0, 0, 1, 1, 1, 0, 0⟩,
        ⟨[3], 0, 0, 2, 2, 2, 0, 0⟩] : List PathCandidate),
      dominatesB (fromPathCandidate d).objectives
        (fromPathCandidate c).objectives = false) :=
  ⟨by decide, by decide,
   (select_top_k_amended [⟨[1], 0, 0, 0, 0, 0, 0, 0⟩,
      ⟨[2], 0, 0, 1, 1, 1, 0, 0⟩, ⟨[3], 0, 0, 2, 2, 2, 0, 0⟩] 2
      (by decide) (by decide)).1⟩

theorem getD_mem_or {β : Type} (l : List β) (i : ℕ) (d : β) :
    l.getD i d ∈ l ∨ l.getD i d = d := by
  unfold List.getD
  cases h : l.get? i with
  | none => simp
  | some a => simp [List.get?_eq_getElem?] at h ⊢; exact Or.inl (List.getElem?_mem h)

theorem mem_siftdown {α : Type} {lt : α → α → Bool} :
    ∀ {fuel : ℕ} {heap : List α} {startpos pos : ℕ} {newitem x : α},
      x ∈ siftdown lt fuel heap startpos pos newitem → x ∈ heap ∨ x = newitem := by
  intro fuel
  induction fuel with
  | zero =>
      intro heap startpos pos newitem x h
      exact List.mem_or_eq_of_mem_set h
  | succ fuel ih =>
      intro heap startpos pos newitem x h
      unfold siftdown at h
      dsimp only at h
      split_ifs at h with h1 h2
      · rcases ih h with h3 | h3
        · rcases List.mem_or_eq_of_mem_set h3 with h4 | h4
          · exact Or.inl h4
          · subst h4
            rcases getD_mem_or heap ((pos - 1) / 2) newitem with h5 | h5
            · exact Or.inl h5
            · exact Or.inr h5
        · exact Or.inr h3
      · exact List.mem_or_eq_of_mem_set h
      · exact List.mem_or_eq_of_mem_set h

theorem mem_siftupLoop {α : Type} {lt : α → α → Bool} :
    ∀ {fuel : ℕ} {heap : List α} {pos : ℕ} {newitem : α} {startpos : ℕ} {x : α},
      x ∈ siftupLoop lt fuel heap pos newitem startpos →
      x ∈ heap ∨ x = newitem := by
  intro fuel
  induction fuel with
  | zero =>
      intro heap pos newitem startpos x h
      exact List.mem_or_eq_of_mem_set h
  | succ fuel ih =>
      intro heap pos newitem startpos x h
      unfold siftupLoop at h
      dsimp only at h
      split_ifs at h with h1
      · rcases ih h with h3 | h3
        · rcases List.mem_or_eq_of_mem_set h3 with h4 | h4
          · exact Or.inl h4
          · subst h4
            rcases getD_mem_or heap (pickChild lt heap pos newitem) newitem with h5 | h5
            · exact Or.inl h5
            · exact Or.inr h5
        · exact Or.inr h3
      · rcases mem_siftdown h with h3 | h3
        · rcases List.mem_or_eq_of_mem_set h3 with h4 | h4
          · exact Or.inl h4
          · exact Or.inr h4
        · exact Or.inr h3

theorem mem_heappush {α : Type} {lt : α → α → Bool} {heap : List α} {item x : α}
    (h : x ∈ heappush lt heap item) : x ∈ heap ∨ x = item := by
  unfold heappush at h
  rcases mem_siftdown h with h1 | h1
  · rcases List.mem_append.mp h1 with h2 | h2
    · exact Or.inl h2
    · exact Or.inr (List.mem_singleton.mp h2)
  · exact Or.inr h1

theorem heappop_mem {α : Type} {lt : α → α → Bool} {heap rest : List α} {r : α}
    (h : heappop lt heap = some (r, rest)) :
    r ∈ heap ∧ ∀ x ∈ rest, x ∈ heap := by
  match heap with
  | [] => cases h
  | [a] =>
      simp only [heappop, Option.some.injEq, Prod.mk.injEq] at h
      obtain ⟨rfl, rfl⟩ := h
      exact ⟨List.mem_singleton.mpr rfl, by simp⟩
  | a :: b :: t =>
      simp only [heappop, Option.some.injEq, Prod.mk.injEq] at h
      obtain ⟨rfl, rfl⟩ := h
      refine ⟨List.mem_cons_self a _, ?_⟩
      intro x hx
      have hsub : ∀ y ∈ ((a :: b :: t).dropLast).set 0 ((b :: t).getLastD b),
          y ∈ a :: b :: t := by
        intro y hy
        rcases List.mem_or_eq_of_mem_set hy with h1 | h1
        · exact (List.dropLast_sublist (a :: b :: t)).mem h1
        · subst h1
          have : (b :: t).getLastD b = (b :: t).getLast (by simp) := by
            rw [List.getLastD_eq_getLast?, List.getLast?_eq_getLast _ (by simp)]
            rfl
          rw [this]
          exact List.mem_cons_of_mem a (List.getLast_mem _)
      unfold siftup at hx
      cases hg : (((a :: b :: t).dropLast).set 0 ((b :: t).getLastD b)).get? 0 with
      | none => rw [hg] at hx; exact hsub x hx
      | some newitem =>
          rw [hg] at hx
          rcases mem_siftupLoop hx with h1 | h1
          · exact hsub x h1
          · subst h1
            rw [List.get?_eq_getElem?] at hg
            exact hsub x (List.getElem?_mem hg)

/-- Invariant of every open-set entry of `find_path`: the path is
nonempty, starts at the start node, its tail has no duplicates, and it
ends at the entry's current node. -/
def ItemInv (start_id : ℤ) (it : PriorityItem) : Prop :=
  it.path ≠ [] ∧ it.path.head? = some start_id ∧ it.path.tail.Nodup ∧
    it.path.getLast? = some it.node_id

/-- Shape of a closed walk as produced by `find_path`: the start node,
at least two distinct intermediates without repetition and without the
start node, and the start node again. -/
def ClosedWalkShape (start_id : ℤ) (p : List ℤ) : Prop :=
  ∃ mid : List ℤ, p = start_id :: (mid ++ [start_id]) ∧ mid.Nodup ∧
    start_id ∉ mid ∧ 2 ≤ mid.length

theorem closure_shape {start_id : ℤ} {it : PriorityItem}
    (hinv : ItemInv start_id it) (hid : it.node_id = start_id)
    (hlen : 3 < it.path.length) : ClosedWalkShape start_id it.path := by
  obtain ⟨hne, hhead, hnodup, hlast⟩ := hinv
  rcases hp : it.path with - | ⟨a, t⟩
  · exact absurd hp hne
  rw [hp] at hhead hnodup hlast hlen
  have ha : a = start_id := by simpa using hhead
  simp only [List.tail_cons] at hnodup
  have ht : t ≠ [] := by
    intro h'
    rw [h'] at hlen
    simp at hlen
  have hlast' : t.getLast ht = start_id := by
    rw [List.getLast?_eq_getLast _ (by simp), List.getLast_cons ht, hid] at hlast
    exact Option.some.inj hlast
  have hdecomp : t.dropLast ++ [start_id] = t := by
    conv_rhs => rw [← List.dropLast_append_getLast ht]
    rw [hlast']
  refine ⟨t.dropLast, ?_, hnodup.sublist (List.dropLast_sublist t), ?_, ?_⟩
  · rw [hdecomp, ha]
  · rw [← hdecomp] at hnodup
    obtain ⟨-, -, hdisj⟩ := List.nodup_append.mp hnodup
    exact fun hmem => hdisj hmem (List.mem_singleton.mpr rfl)
  · have := congrArg List.length hdecomp
    simp only [List.length_append, List.length_singleton] at this
    simp only [List.length_cons] at hlen
    omega

theorem push_item_inv {start_id : ℤ} {current : PriorityItem}
    (hinv : ItemInv start_id current) {nbr : ℤ}
    (hnmem : nbr ∉ current.path.drop 1) (pr g pl : ℚ) (tl : ℤ) :
    ItemInv start_id ⟨pr, nbr, current.path ++ [nbr], g, pl, tl⟩ := by
  obtain ⟨hne, hhead, hnodup, -⟩ := hinv
  refine ⟨by simp, ?_, ?_, List.getLast?_concat _⟩
  · rw [List.head?_append_of_ne_nil _ hne]
    exact hhead
  · rcases hp : current.path with - | ⟨a, t⟩
    · exact absurd hp hne
    rw [hp] at hnodup hnmem
    simp only [List.drop_one, List.tail_cons] at hnodup hnmem
    dsimp only
    simp only [List.cons_append, List.tail_cons, List.nodup_append]
    exact ⟨hnodup, List.nodup_singleton _,
      fun x hx hx' => hnmem ((List.mem_singleton.mp hx') ▸ hx)⟩

theorem foldl_push_inv {P : PriorityItem → Prop}
    (step : List PriorityItem → ℤ → List PriorityItem)
    (hstep : ∀ os nbr, (∀ it ∈ os, P it) → ∀ it ∈ step os nbr, P it) :
    ∀ (nbrs : List ℤ) (os : List PriorityItem), (∀ it ∈ os, P it) →
      ∀ it ∈ nbrs.foldl step os, P it
  | [], os, hos => hos
  | nbr :: nbrs, os, hos => by
      rw [List.foldl_cons]
      exact foldl_push_inv step hstep nbrs (step os nbr) (hstep os nbr hos)

theorem findPathLoop_shape (geo : Geo) (F : AStarPathFinder) (start_node : Node)
    (start_id : ℤ) :
    ∀ (fuel : ℕ) (openSet : List PriorityItem) (visited : List ((ℤ × ℤ) × ℚ))
      (best : Option (ℚ × PathCandidate)),
      (∀ it ∈ openSet, ItemInv start_id it) →
      (∀ p : ℚ × PathCandidate, best = some p → ClosedWalkShape start_id p.2.path) →
      ∀ c, findPathLoop geo F start_node start_id openSet visited best fuel = some c →
        ClosedWalkShape start_id c.path := by
  intro fuel
  induction fuel with
  | zero =>
      intro openSet visited best hopen hbest c hc
      simp only [findPathLoop] at hc
      rcases best with - | p
      · cases hc
      · have hpc : p.2 = c := by simpa using hc
        exact hpc ▸ hbest p rfl
  | succ fuel ih =>
      intro openSet visited best hopen hbest c hc
      rw [findPathLoop] at hc
      cases hpop : heappop itemLt openSet with
      | none =>
          rw [hpop] at hc
          rcases best with - | p
          · cases hc
          · have hpc : p.2 = c := by simpa using hc
            exact hpc ▸ hbest p rfl
      | some pr =>
          obtain ⟨current, openSet'⟩ := pr
          rw [hpop] at hc
          have hcur : ItemInv start_id current := hopen _ (heappop_mem hpop).1
          have hopen' : ∀ it ∈ openSet', ItemInv start_id it :=
            fun it h => hopen it ((heappop_mem hpop).2 it h)
          dsimp only at hc
          split_ifs at hc with hclo
          · cases hcalc : F.cost_calculator.calculate geo current.path F.graph with
            | error e =>
                rw [hcalc] at hc
                exact ih _ _ _ hopen' hbest c hc
            | ok cost_result =>
                rw [hcalc] at hc
                dsimp only at hc
                refine ih _ _ _ hopen' ?_ c hc
                intro p hp
                have hshape : ClosedWalkShape start_id current.path :=
                  closure_shape hcur hclo.1 hclo.2
                rcases best with - | ⟨bc, bcand⟩
                · simp only [Option.some.injEq] at hp
                  rw [← hp]
                  exact hshape
                · dsimp only at hp
                  split_ifs at hp with hlt
                  · simp only [Option.some.injEq] at hp
                    rw [← hp]
                    exact hshape
                  · exact hbest p hp
          · split at hc
            · exact ih _ _ _ hopen' hbest c hc
            · split at hc
              · exact ih _ _ _ hopen' hbest c hc
              · refine ih _ _ _ ?_ hbest c hc
                refine foldl_push_inv _ ?_ _ _ hopen'
                intro os nbr hos it hit
                split_ifs at hit with hmem
                · exact hos it hit
                · split at hit
                  · exact hos it hit
                  · split at hit
                    · exact hos it hit
                    · rcases mem_heappush hit with h1 | h1
                      · exact hos it h1
                      · rw [h1]
                        exact push_item_inv hcur hmem _ _ _ _

/-- C3: every candidate `AStarPathFinder.find_path` returns is closed —
its first node id equals its last (the start node) and it has at least
four entries — and internally repeat-free: the intermediate ids are
pairwise distinct and exclude the start node, so only the start node
appears twice, at the two endpoints. -/
theorem find_path_closed (geo : Geo) (F : AStarPathFinder) (start_node_id : ℤ)
    (max_iterations : ℤ) (c : PathCandidate)
    (h : F.find_path geo start_node_id max_iterations = some c) :
    c.path.head? = some start_node_id ∧ c.path.getLast? = some start_node_id ∧
    4 ≤ c.path.length ∧
    ∃ mid : List ℤ, c.path = start_node_id :: (mid ++ [start_node_id]) ∧
      mid.Nodup ∧ start_node_id ∉ mid ∧ 2 ≤ mid.length := by
  unfold AStarPathFinder.find_path at h
  cases hsn : F.graph.get_node start_node_id with
  | none => rw [hsn] at h; cases h
  | some start_node =>
      rw [hsn] at h
      dsimp only at h
      have hshape : ClosedWalkShape start_node_id c.path := by
        refine findPathLoop_shape geo F start_node start_node_id _ _ _ _ ?_ ?_ c h
        · intro it hit
          rcases mem_heappush hit with h1 | h1
          · simp at h1
          · rw [h1]
            exact ⟨by simp, rfl, List.nodup_nil, rfl⟩
        · intro p hp
          cases hp
      obtain ⟨mid, hmid, hnodup, hnotmem, hlen⟩ := hshape
      refine ⟨?_, ?_, ?_, mid, hmid, hnodup, hnotmem, hlen⟩
      · rw [hmid]
        rfl
      · rw [hmid, ← List.cons_append, List.getLast?_concat]
      · rw [hmid]
        simp only [List.length_cons, List.length_append, List.length_singleton]
        omega

/-- Witness for C3: on the triangle graph, `find_path` from node 1
returns the closed walk `[1, 3, 2, 1]`, which satisfies every conjunct. -/
theorem find_path_closed_witness :
    ([1, 3, 2, 1] : List ℤ).head? = some 1 ∧
    ([1, 3, 2, 1] : List ℤ).getLast? = some 1 ∧
    4 ≤ ([1, 3, 2, 1] : List ℤ).length ∧
    ∃ mid : List ℤ, ([1, 3, 2, 1] : List ℤ) = 1 :: (mid ++ [1]) ∧
      mid.Nodup ∧ (1 : ℤ) ∉ mid ∧ 2 ≤ mid.length :=
  find_path_closed zeroGeo
    ⟨triGraph, [⟨0, 0⟩, ⟨1, 1⟩], 1, 0, (1, 1, 1),
     ⟨⟨[⟨0, 0⟩, ⟨1, 1⟩], 1⟩, ⟨1⟩, ⟨0⟩, (1, 1, 1), 1⟩⟩ 1 50
    ⟨[1, 3, 2, 1], 3/10, 7/10, 0, 7/10, 0, 3/10, 0⟩ (by decide)

/-- One parent-child pair of the binary-heap shape: the entry at
`(j-1)/2` must not exceed the entry at `j` under `key`. -/
def heapPairOK {α : Type} (key : α → ℚ) (l : List α) (j : ℕ) : Bool :=
  match l.get? ((j - 1) / 2), l.get? j with
  | some x, some y => decide (key x ≤ key y)
  | _, _ => true

/-- The `heapq` invariant: every parent is ≤ its children under `key`. -/
def IsHeap {α : Type} (key : α → ℚ) (l : List α) : Prop :=
  ∀ j, j < l.length → 0 < j → heapPairOK key l j = true

instance {α : Type} (key : α → ℚ) (l : List α) : Decidable (IsHeap key l) :=
  Nat.decidableBallLT l.length (fun j _ => 0 < j → heapPairOK key l j = true)

theorem isHeap_get_min {α : Type} (key : α → ℚ) (l : List α)
    (hh : IsHeap key l) (r : α) (hr : l.get? 0 = some r) :
    ∀ j x, l.get? j = some x → key r ≤ key x := by
  intro j
  induction j using Nat.strong_induction_on with
  | _ j ih =>
      intro x hx
      rcases Nat.eq_zero_or_pos j with rfl | hj
      · rw [hr] at hx
        cases hx
        exact le_refl _
      · have hjlen : j < l.length := by
          rw [List.get?_eq_getElem?] at hx
          exact (List.getElem?_eq_some.mp hx).1
        have hpair := hh j hjlen hj
        unfold heapPairOK at hpair
        have hplen : (j - 1) / 2 < l.length := by
          have : (j - 1) / 2 ≤ j - 1 := Nat.div_le_self _ 2
          omega
        cases hp : l.get? ((j - 1) / 2) with
        | none =>
            rw [List.get?_eq_getElem?] at hp
            rw [List.getElem?_eq_none_iff] at hp
            omega
        | some p =>
            rw [hp, hx] at hpair
            simp only [decide_eq_true_eq] at hpair
            have hrec : key r ≤ key p :=
              ih ((j - 1) / 2) (by omega) p hp
            exact hrec.trans hpair

/-- C7 counterexample: five entries with equal f-cost are pushed in node
id order 1,2,3,4,5; the first pop returns the first-inserted entry but
the second pop returns the entry inserted third, not second — among
equal f-costs the entry inserted earlier is not popped first (the
`PriorityItem` comparison has no insertion counter; ties follow the
binary-heap layout). -/
theorem heappop_ties_not_insertion_order :
    heappop itemLt (([1, 2, 3, 4, 5].map
        (fun k => PriorityItem.mk 1 k [] 0 0 0)).foldl (heappush itemLt) []) =
      some (⟨1, 1, [], 0, 0, 0⟩,
        [⟨1, 3, [], 0, 0, 0⟩, ⟨1, 2, [], 0, 0, 0⟩, ⟨1, 5, [], 0, 0, 0⟩,
         ⟨1, 4, [], 0, 0, 0⟩]) ∧
    heappop itemLt [⟨1, 3, [], 0, 0, 0⟩, ⟨1, 2, [], 0, 0, 0⟩,
        ⟨1, 5, [], 0, 0, 0⟩, ⟨1, 4, [], 0, 0, 0⟩] =
      some (⟨1, 3, [], 0, 0, 0⟩,
        [⟨1, 5, [], 0, 0, 0⟩, ⟨1, 2, [], 0, 0, 0⟩, ⟨1, 4, [], 0, 0, 0⟩]) := by
  decide

/-! ### Heap-invariant preservation (the C7 analysis) -/

theorem heapPairOK_of {α : Type} (key : α → ℚ) (l : List α) (j : ℕ)
    (h : ∀ p y, l.get? ((j - 1) / 2) = some p → l.get? j = some y →
      key p ≤ key y) :
    heapPairOK key l j = true := by
  unfold heapPairOK
  cases hp : l.get? ((j - 1) / 2) with
  | none => rfl
  | some p =>
      cases hy : l.get? j with
      | none => rfl
      | some y => simpa using h p y hp hy

theorem heapPairOK_elim {α : Type} {key : α → ℚ} {l : List α} {j : ℕ}
    (hOK : heapPairOK key l j = true) {p y : α}
    (hp : l.get? ((j - 1) / 2) = some p) (hy : l.get? j = some y) :
    key p ≤ key y := by
  unfold heapPairOK at hOK
  rw [hp, hy] at hOK
  simpa using hOK

theorem get?_of_lt {α : Type} (l : List α) (j : ℕ) (h : j < l.length) :
    ∃ x, l.get? j = some x :=
  ⟨l.get ⟨j, h⟩, List.get?_eq_get h⟩

theorem getD_of_get? {α : Type} {l : List α} {j : ℕ} {x : α} (d : α)
    (h : l.get? j = some x) : l.getD j d = x := by
  unfold List.getD
  rw [h]
  rfl

theorem dropLast_get? {α : Type} (l : List α) (j : ℕ) (h : j < l.length - 1) :
    l.dropLast.get? j = l.get? j := by
  rw [List.dropLast_eq_take]
  exact List.get?_take h

theorem siftdown_isHeap {α : Type} (key : α → ℚ) (lt : α → α → Bool)
    (hlt : ∀ a b, lt a b = true ↔ key a < key b) :
    ∀ (fuel : ℕ) (l : List α) (pos : ℕ) (ni : α),
      pos < l.length → pos < fuel →
      (∀ j, j < l.length → 0 < j → j ≠ pos → (j - 1) / 2 ≠ pos →
        heapPairOK key l j = true) →
      (∀ c y, c < l.length → 0 < c → (c - 1) / 2 = pos →
        l.get? c = some y → key ni ≤ key y) →
      (0 < pos → ∀ p, l.get? ((pos - 1) / 2) = some p →
        ∀ c y, c < l.length → 0 < c → (c - 1) / 2 = pos →
          l.get? c = some y → key p ≤ key y) →
      IsHeap key (siftdown lt fuel l 0 pos ni) := by
  intro fuel
  induction fuel with
  | zero => intro l pos ni _ hfuel _ _ _; omega
  | succ fuel ih =>
      intro l pos ni hlen hfuel H1 H2 H3
      unfold siftdown
      dsimp only
      split_ifs with h0 hcmp
      · -- climb: the new item is smaller than the parent
        have hplen : (pos - 1) / 2 < l.length := by omega
        obtain ⟨p, hp⟩ := get?_of_lt l ((pos - 1) / 2) hplen
        rw [getD_of_get? ni hp] at hcmp ⊢
        have hnip : key ni < key p := (hlt ni p).mp hcmp
        apply ih (l.set pos p) ((pos - 1) / 2) ni
        · rw [List.length_set]; omega
        · omega
        · intro j hj hj0 hjne hpne
          rw [List.length_set] at hj
          by_cases hjp : j = pos
          · subst hjp
            exact absurd rfl hpne
          · by_cases hparj : (j - 1) / 2 = pos
            · apply heapPairOK_of
              intro q y hq hy
              rw [hparj] at hq
              rw [List.get?_set_eq_of_lt p hlen] at hq
              injection hq with hq
              subst hq
              rw [List.get?_set_ne p l (show pos ≠ j by omega)] at hy
              exact H3 h0 p hp j y hj hj0 hparj hy
            · apply heapPairOK_of
              intro q y hq hy
              rw [List.get?_set_ne p l (show pos ≠ (j - 1) / 2 by omega)] at hq
              rw [List.get?_set_ne p l (show pos ≠ j by omega)] at hy
              exact heapPairOK_elim (H1 j hj hj0 hjp hparj) hq hy
        · intro c y hc hc0 hparc hcy
          rw [List.length_set] at hc
          by_cases hcp : c = pos
          · subst hcp
            rw [List.get?_set_eq_of_lt p hlen] at hcy
            injection hcy with hcy
            subst hcy
            exact le_of_lt hnip
          · rw [List.get?_set_ne p l (show pos ≠ c by omega)] at hcy
            have hpy : key p ≤ key y := by
              apply heapPairOK_elim (H1 c hc hc0 hcp (show (c - 1) / 2 ≠ pos by omega)) _ hcy
              rw [hparc]; exact hp
            exact le_of_lt (lt_of_lt_of_le hnip hpy)
        · intro h0' q hq c y hc hc0 hparc hcy
          rw [List.length_set] at hc
          rw [List.get?_set_ne p l
            (show pos ≠ ((pos - 1) / 2 - 1) / 2 by omega)] at hq
          have hqp : key q ≤ key p :=
            heapPairOK_elim
              (H1 ((pos - 1) / 2) hplen h0' (by omega) (by omega)) hq hp
          by_cases hcp : c = pos
          · subst hcp
            rw [List.get?_set_eq_of_lt p hlen] at hcy
            injection hcy with hcy
            subst hcy
            exact hqp
          · rw [List.get?_set_ne p l (show pos ≠ c by omega)] at hcy
            have hpy : key p ≤ key y := by
              apply heapPairOK_elim (H1 c hc hc0 hcp (show (c - 1) / 2 ≠ pos by omega)) _ hcy
              rw [hparc]; exact hp
            exact le_trans hqp hpy
      · -- the new item stays at pos; its parent is already ≤ it
        have hplen : (pos - 1) / 2 < l.length := by omega
        obtain ⟨p, hp⟩ := get?_of_lt l ((pos - 1) / 2) hplen
        rw [getD_of_get? ni hp] at hcmp
        have hpni : key p ≤ key ni :=
          le_of_not_lt (fun hc => hcmp ((hlt ni p).mpr hc))
        intro j hj hj0
        rw [List.length_set] at hj
        by_cases hjp : j = pos
        · subst hjp
          apply heapPairOK_of
          intro q y hq hy
          rw [List.get?_set_ne ni l (show j ≠ (j - 1) / 2 by omega)] at hq
          rw [hp] at hq
          injection hq with hq
          subst hq
          rw [List.get?_set_eq_of_lt ni hlen] at hy
          injection hy with hy
          subst hy
          exact hpni
        · by_cases hparj : (j - 1) / 2 = pos
          · apply heapPairOK_of
            intro q y hq hy
            rw [hparj] at hq
            rw [List.get?_set_eq_of_lt ni hlen] at hq
            injection hq with hq
            subst hq
            rw [List.get?_set_ne ni l (show pos ≠ j by omega)] at hy
            exact H2 j y hj hj0 hparj hy
          · apply heapPairOK_of
            intro q y hq hy
            rw [List.get?_set_ne ni l (show pos ≠ (j - 1) / 2 by omega)] at hq
            rw [List.get?_set_ne ni l (show pos ≠ j by omega)] at hy
            exact heapPairOK_elim (H1 j hj hj0 hjp hparj) hq hy
      · -- pos = 0: the new item becomes the root
        intro j hj hj0
        rw [List.length_set] at hj
        by_cases hparj : (j - 1) / 2 = pos
        · apply heapPairOK_of
          intro q y hq hy
          rw [hparj] at hq
          rw [List.get?_set_eq_of_lt ni hlen] at hq
          injection hq with hq
          subst hq
          rw [List.get?_set_ne ni l (show pos ≠ j by omega)] at hy
          exact H2 j y hj hj0 hparj hy
        · apply heapPairOK_of
          intro q y hq hy
          rw [List.get?_set_ne ni l (show pos ≠ (j - 1) / 2 by omega)] at hq
          rw [List.get?_set_ne ni l (show pos ≠ j by omega)] at hy
          exact heapPairOK_elim (H1 j hj hj0 (show j ≠ pos by omega) hparj) hq hy

theorem siftupLoop_isHeap {α : Type} (key : α → ℚ) (lt : α → α → Bool)
    (hlt : ∀ a b, lt a b = true ↔ key a < key b) :
    ∀ (fuel : ℕ) (l : List α) (pos : ℕ) (ni : α),
      pos < l.length → l.length - pos ≤ fuel →
      (∀ j, j < l.length → 0 < j → j ≠ pos → (j - 1) / 2 ≠ pos →
        heapPairOK key l j = true) →
      (0 < pos → ∀ p, l.get? ((pos - 1) / 2) = some p →
        ∀ c y, c < l.length → 0 < c → (c - 1) / 2 = pos →
          l.get? c = some y → key p ≤ key y) →
      IsHeap key (siftupLoop lt fuel l pos ni 0) := by
  intro fuel
  induction fuel with
  | zero => intro l pos ni hlen hfuel _ _; omega
  | succ fuel ih =>
      intro l pos ni hlen hfuel K1 K2
      unfold siftupLoop
      dsimp only
      split_ifs with hch
      · -- a child exists: promote the smaller child into the hole
        have hcp1 : pos < pickChild lt l pos ni := pos_lt_pickChild lt l pos ni
        have hcp2 : pickChild lt l pos ni < l.length :=
          pickChild_lt_length lt l pos ni hch
        obtain ⟨ch, hchv⟩ := get?_of_lt l (pickChild lt l pos ni) hcp2
        rw [getD_of_get? ni hchv]
        have hparent : (pickChild lt l pos ni - 1) / 2 = pos := by
          unfold pickChild
          split_ifs <;> omega
        have hmin : ∀ s y, s < l.length → 0 < s → (s - 1) / 2 = pos →
            l.get? s = some y → key ch ≤ key y := by
          intro s y hs hs0 hpars hsy
          have hs12 : s = 2 * pos + 1 ∨ s = 2 * pos + 2 := by omega
          unfold pickChild at hchv
          split_ifs at hchv with hcond
          · -- the right child was picked: it is not greater than the left
            obtain ⟨hrlen, hnlt⟩ := hcond
            obtain ⟨lv, hlv⟩ := get?_of_lt l (2 * pos + 1) hch
            rw [getD_of_get? ni hlv, getD_of_get? ni hchv] at hnlt
            rcases hs12 with rfl | rfl
            · rw [hlv] at hsy
              injection hsy with hsy
              subst hsy
              exact le_of_not_lt (fun hc => hnlt ((hlt lv ch).mpr hc))
            · rw [hchv] at hsy
              injection hsy with hsy
              subst hsy
              exact le_refl _
          · -- the left child was picked
            rcases hs12 with rfl | rfl
            · rw [hchv] at hsy
              injection hsy with hsy
              subst hsy
              exact le_refl _
            · have hB : lt (l.getD (2 * pos + 1) ni) (l.getD (2 * pos + 2) ni)
                  = true := by
                by_contra hB
                exact hcond ⟨hs, hB⟩
              rw [getD_of_get? ni hchv, getD_of_get? ni hsy] at hB
              exact le_of_lt ((hlt ch y).mp hB)
        apply ih (l.set pos ch) (pickChild lt l pos ni) ni
        · rw [List.length_set]; exact hcp2
        · rw [List.length_set]; omega
        · intro j hj hj0 hjne hpne
          rw [List.length_set] at hj
          by_cases hjpos : j = pos
          · subst hjpos
            apply heapPairOK_of
            intro q y hq hy
            rw [List.get?_set_ne ch l (show j ≠ (j - 1) / 2 by omega)] at hq
            rw [List.get?_set_eq_of_lt ch hlen] at hy
            injection hy with hy
            subst hy
            exact K2 hj0 q hq (pickChild lt l j ni) ch hcp2
              (show 0 < pickChild lt l j ni by omega) hparent hchv
          · by_cases hparj : (j - 1) / 2 = pos
            · apply heapPairOK_of
              intro q y hq hy
              rw [hparj] at hq
              rw [List.get?_set_eq_of_lt ch hlen] at hq
              injection hq with hq
              subst hq
              rw [List.get?_set_ne ch l (show pos ≠ j by omega)] at hy
              exact hmin j y hj hj0 hparj hy
            · apply heapPairOK_of
              intro q y hq hy
              rw [List.get?_set_ne ch l (show pos ≠ (j - 1) / 2 by omega)] at hq
              rw [List.get?_set_ne ch l (show pos ≠ j by omega)] at hy
              exact heapPairOK_elim (K1 j hj hj0 hjpos hparj) hq hy
        · intro h0c q hq c y hc hc0 hparc hcy
          rw [List.length_set] at hc
          rw [hparent] at hq
          rw [List.get?_set_eq_of_lt ch hlen] at hq
          injection hq with hq
          subst hq
          rw [List.get?_set_ne ch l (show pos ≠ c by omega)] at hcy
          apply heapPairOK_elim
            (K1 c hc hc0 (show c ≠ pos by omega)
              (show (c - 1) / 2 ≠ pos by omega)) _ hcy
          rw [hparc]
          exact hchv
      · -- no children: place the item and sift it towards the root
        apply siftdown_isHeap key lt hlt (pos + 1) (l.set pos ni) pos ni
        · rw [List.length_set]; exact hlen
        · omega
        · intro j hj hj0 hjne hpne
          rw [List.length_set] at hj
          apply heapPairOK_of
          intro q y hq hy
          rw [List.get?_set_ne ni l (show pos ≠ (j - 1) / 2 by omega)] at hq
          rw [List.get?_set_ne ni l (show pos ≠ j by omega)] at hy
          exact heapPairOK_elim (K1 j hj hj0 hjne hpne) hq hy
        · intro c y hc hc0 hparc hcy
          rw [List.length_set] at hc
          exfalso
          omega
        · intro hp0 p hp c y hc hc0 hparc hcy
          rw [List.length_set] at hc
          exfalso
          omega

theorem heappush_isHeap {α : Type} (key : α → ℚ) (lt : α → α → Bool)
    (hlt : ∀ a b, lt a b = true ↔ key a < key b) (l : List α) (x : α)
    (hh : IsHeap key l) : IsHeap key (heappush lt l x) := by
  unfold heappush
  apply siftdown_isHeap key lt hlt (l.length + 1) (l ++ [x]) l.length x
  · rw [List.length_append, List.length_singleton]
    omega
  · omega
  · intro j hj hj0 hjne hpne
    rw [List.length_append, List.length_singleton] at hj
    apply heapPairOK_of
    intro q y hq hy
    rw [List.get?_append (show (j - 1) / 2 < l.length by omega)] at hq
    rw [List.get?_append (show j < l.length by omega)] at hy
    exact heapPairOK_elim (hh j (by omega) hj0) hq hy
  · intro c y hc hc0 hparc hcy
    rw [List.length_append, List.length_singleton] at hc
    exfalso
    omega
  · intro hp0 p hp c y hc hc0 hparc hcy
    rw [List.length_append, List.length_singleton] at hc
    exfalso
    omega

theorem siftup_dropLast_isHeap {α : Type} (key : α → ℚ) (lt : α → α → Bool)
    (hlt : ∀ a b, lt a b = true ↔ key a < key b) (L : List α) (e : α)
    (hh : IsHeap key L) (hL : 2 ≤ L.length) :
    IsHeap key (siftup lt ((L.dropLast).set 0 e) 0) := by
  have hdl : (L.dropLast).length = L.length - 1 := List.length_dropLast L
  have hlen1 : ((L.dropLast).set 0 e).length = L.length - 1 := by
    rw [List.length_set, hdl]
  have hget0 : ((L.dropLast).set 0 e).get? 0 = some e :=
    List.get?_set_eq_of_lt e (by omega)
  unfold siftup
  rw [hget0]
  dsimp only
  apply siftupLoop_isHeap key lt hlt _ _ 0 e (by omega) (by omega)
  · intro j hj hj0 hjne hpne
    rw [hlen1] at hj
    apply heapPairOK_of
    intro q y hq hy
    rw [List.get?_set_ne e _ (show 0 ≠ (j - 1) / 2 by omega)] at hq
    rw [List.get?_set_ne e _ (show 0 ≠ j by omega)] at hy
    rw [dropLast_get? L _ (by omega)] at hq
    rw [dropLast_get? L _ (by omega)] at hy
    exact heapPairOK_elim (hh j (by omega) hj0) hq hy
  · intro h0
    exact absurd h0 (lt_irrefl 0)

theorem heappop_min_isHeap {α : Type} (key : α → ℚ) (lt : α → α → Bool)
    (hlt : ∀ a b, lt a b = true ↔ key a < key b) (l : List α)
    (hh : IsHeap key l) (r : α) (rest : List α)
    (hpop : heappop lt l = some (r, rest)) :
    (∀ y ∈ l, key r ≤ key y) ∧ r ∈ l ∧ IsHeap key rest := by
  match l, hh with
  | [], _ => cases hpop
  | [a], hh =>
      simp only [heappop, Option.some.injEq, Prod.mk.injEq] at hpop
      obtain ⟨rfl, rfl⟩ := hpop
      refine ⟨?_, List.mem_singleton.mpr rfl, ?_⟩
      · intro y hy
        rw [List.mem_singleton] at hy
        subst hy
        exact le_refl _
      · intro j hj hj0
        simp at hj
  | a :: b :: t, hh =>
      simp only [heappop, Option.some.injEq, Prod.mk.injEq] at hpop
      obtain ⟨rfl, rfl⟩ := hpop
      refine ⟨?_, List.mem_cons_self a _, ?_⟩
      · intro y hy
        obtain ⟨j, hjy⟩ := List.mem_iff_get?.mp hy
        exact isHeap_get_min key (a :: b :: t) hh a rfl j y hjy
      · exact siftup_dropLast_isHeap key lt hlt (a :: b :: t)
          ((b :: t).getLastD b) hh (by simp)

/-- **C7** (corrected): `PriorityItem` is `@dataclass(order=True)` with
every field except `priority` excluded from comparison, so open-set
entries compare by the f-cost alone — there is no `(f_cost, insertion
counter)` key, and among equal f-costs the pop order follows the
binary-heap layout rather than insertion order.  What does hold of the
open set: `heappush` preserves the binary-heap invariant on f-cost, and
`heappop` on a heap returns an element of minimal f-cost that was in the
heap, again leaving a heap — so every expansion removes some entry of
minimal f-cost, and the order is a deterministic function of the
push/pop sequence. -/
theorem priorityQueue_min_by_fcost (h : List PriorityItem) (x : PriorityItem)
    (hh : IsHeap PriorityItem.priority h) :
    IsHeap PriorityItem.priority (heappush itemLt h x) ∧
    ∀ r rest, heappop itemLt h = some (r, rest) →
      (∀ y ∈ h, r.priority ≤ y.priority) ∧ r ∈ h ∧
      IsHeap PriorityItem.priority rest := by
  have hlt : ∀ a b : PriorityItem, itemLt a b = true ↔ a.priority < b.priority := by
    intro a b
    simp [itemLt]
  exact ⟨heappush_isHeap _ itemLt hlt h x hh,
    fun r rest hpop => heappop_min_isHeap _ itemLt hlt h hh r rest hpop⟩

theorem priorityQueue_min_by_fcost_witness :
    IsHeap PriorityItem.priority
        [⟨1, 1, [], 0, 0, 0⟩, ⟨2, 2, [], 0, 0, 0⟩, ⟨3, 3, [], 0, 0, 0⟩] ∧
    (IsHeap PriorityItem.priority
        (heappush itemLt
          [⟨1, 1, [], 0, 0, 0⟩, ⟨2, 2, [], 0, 0, 0⟩, ⟨3, 3, [], 0, 0, 0⟩]
          ⟨0, 4, [], 0, 0, 0⟩) ∧
      ∀ r rest,
        heappop itemLt
            [⟨1, 1, [], 0, 0, 0⟩, ⟨2, 2, [], 0, 0, 0⟩, ⟨3, 3, [], 0, 0, 0⟩] =
          some (r, rest) →
        (∀ y ∈ [(⟨1, 1, [], 0, 0, 0⟩ : PriorityItem), ⟨2, 2, [], 0, 0, 0⟩,
            ⟨3, 3, [], 0, 0, 0⟩], r.priority ≤ y.priority) ∧
        r ∈ [(⟨1, 1, [], 0, 0, 0⟩ : PriorityItem), ⟨2, 2, [], 0, 0, 0⟩,
            ⟨3, 3, [], 0, 0, 0⟩] ∧
        IsHeap PriorityItem.priority rest) :=
  ⟨by decide,
   priorityQueue_min_by_fcost
     [⟨1, 1, [], 0, 0, 0⟩, ⟨2, 2, [], 0, 0, 0⟩, ⟨3, 3, [], 0, 0, 0⟩]
     ⟨0, 4, [], 0, 0, 0⟩ (by decide)⟩

/-! ### Entropy dependence of `find_routes` (C4) -/

/-- A 5-node graph with two closed walks through node 1: the triangle
1-2-3-1 (1.0 km, one traffic light at node 2) and the triangle 1-4-5-1
(1.2 km, no lights).  Neighbor lists are built in ascending id order, so
the embedded insertion-ordered adjacency matches CPython's small-int set
iteration order. -/
def tg : RoadGraph :=
  (((((((((RoadGraph.empty.add_node ⟨1, 375/10, 127, false⟩).add_node
    ⟨2, 376/10, 127, true⟩).add_node ⟨3, 377/10, 127, false⟩).add_node
    ⟨4, 378/10, 127, false⟩).add_node ⟨5, 379/10, 127, false⟩).add_edge
    ⟨1, 1, 2, 400, .unknown, false⟩).add_edge
    ⟨2, 1, 3, 400, .unknown, false⟩).add_edge
    ⟨3, 1, 4, 400, .unknown, false⟩).add_edge
    ⟨4, 1, 5, 400, .unknown, false⟩).add_edge
    ⟨5, 2, 3, 200, .unknown, false⟩ |>.add_edge
    ⟨6, 4, 5, 400, .unknown, false⟩

/-- A small search configuration: 5 weight samples (4 corners plus one
Dirichlet draw), one rotation, sequential mode. -/
def tcfg : RouteSearchConfig := ⟨5, 1, 200, 5, false, 1⟩

/-- A two-point target curve near the graph. -/
def tcurve : List Coordinate := [⟨375/10, 127⟩, ⟨3751/100, 12701/100⟩]

set_option maxRecDepth 10000 in
/-- C4 counterexample: `RouteSearchConfig` has no seed field and
`RouteFinder.__init__` constructs `WeightSampler()` unseeded, so the
fifth weight vector is drawn from OS entropy.  On identical inputs, a
run whose draw is (0,1,0) (all weight on length) and a run whose draw is
(0,0,1) (all weight on crossings) return different `RouteInfo`
sequences: the extra candidate is the 1.0 km loop with one light in the
first run and the 1.2 km light-free loop in the second. -/
theorem findRoutes_entropy_dependent :
    findRoutes zeroGeo tg tcfg (fun _ => simplexB) tcurve 1 0 (some 1) ≠
    findRoutes zeroGeo tg tcfg (fun _ => simplexC) tcurve 1 0 (some 1) := by
  decide

theorem exceptMap_congr {β : Type} (f g : ℕ → Except PyErr β) :
    ∀ l : List ℕ, (∀ i ∈ l, f i = g i) → exceptMap f l = exceptMap g l := by
  intro l
  induction l with
  | nil => intro _; rfl
  | cons a rest ih =>
      intro h
      unfold exceptMap
      rw [h a (List.mem_cons_self a rest), ih (fun i hi => h i (List.mem_cons_of_mem a hi))]

theorem sample_with_corners_congr (e1 e2 : ℕ → Simplex3) (n : ℤ)
    (h : ∀ i < n.toNat, e1 i = e2 i) :
    WeightSampler.sample_with_corners ⟨e1⟩ n =
    WeightSampler.sample_with_corners ⟨e2⟩ n := by
  have hsample : WeightSampler.sample ⟨e1⟩ n = WeightSampler.sample ⟨e2⟩ n := by
    unfold WeightSampler.sample
    split_ifs with hn
    · rfl
    · exact exceptMap_congr _ _ (List.range n.toNat)
        (fun i hi => by
          show mkWeightVector (e1 i).val.1 (e1 i).val.2.1 (e1 i).val.2.2 =
            mkWeightVector (e2 i).val.1 (e2 i).val.2.1 (e2 i).val.2.2
          rw [h i (List.mem_range.mp hi)])
  unfold WeightSampler.sample_with_corners
  rw [hsample]

/-- **C4** (corrected): the spec's "fixed configured seed of 42" does not
exist — `RouteSearchConfig` has no seed field and `RouteFinder.__init__`
always builds `WeightSampler()` unseeded, so `find_routes` depends on the
OS-entropy stream behind `np.random.default_rng(None)` and two runs on
identical inputs can return different `RouteInfo` sequences (see the
counterexample).  What does hold: the sequential pipeline is
deterministic given the sampler's draws — it consumes exactly the first
`n_weight_samples − 4` entropy draws, so two runs whose entropy streams
agree there return identical sequences — and a seeded sampler
(`WeightSampler(seed)`, which the route finder never constructs) ignores
the entropy stream entirely. -/
theorem findRoutes_deterministic_given_draws (geo : Geo) (g : RoadGraph)
    (cfg : RouteSearchConfig) (e1 e2 : ℕ → Simplex3)
    (target_curve : List Coordinate) (target_distance_km : ℚ)
    (max_crossings : ℤ) (start_opt : Option ℤ)
    (h : ∀ i < (cfg.n_weight_samples - 4).toNat, e1 i = e2 i) :
    findRoutes geo g cfg e1 target_curve target_distance_km max_crossings
        start_opt =
      findRoutes geo g cfg e2 target_curve target_distance_km max_crossings
        start_opt ∧
    ∀ (prng : ℤ → ℕ → Simplex3) (s : ℤ),
      mkWeightSampler prng e1 (some s) = mkWeightSampler prng e2 (some s) := by
  constructor
  · unfold findRoutes
    have hs := sample_with_corners_congr e1 e2 (cfg.n_weight_samples - 4) h
    rw [hs]
  · intro prng s
    rfl

theorem findRoutes_deterministic_given_draws_witness :
    (∀ i < ((tcfg.n_weight_samples - 4).toNat), (fun _ => simplexB) i =
      (fun j => if j < 1 then simplexB else simplexC) i) ∧
    (findRoutes zeroGeo tg tcfg (fun _ => simplexB) tcurve 1 0 (some 1) =
        findRoutes zeroGeo tg tcfg (fun j => if j < 1 then simplexB else simplexC)
          tcurve 1 0 (some 1) ∧
      ∀ (prng : ℤ → ℕ → Simplex3) (s : ℤ),
        mkWeightSampler prng (fun _ => simplexB) (some s) =
          mkWeightSampler prng (fun j => if j < 1 then simplexB else simplexC)
            (some s)) :=
  ⟨by decide,
   findRoutes_deterministic_given_draws zeroGeo tg tcfg (fun _ => simplexB)
     (fun j => if j < 1 then simplexB else simplexC) tcurve 1 0 (some 1)
     (by decide)⟩
